import Mathlib

/-!
# UrhoSampleProject: the frame input controller of `main.cpp`

A shallow embedding of `set_model`, `SampleApplication::HandleUpdate` and
`SampleApplication::HandleKeyDown`.

Conventions of the embedding

* `float` is IEEE 754 binary32, embedded as `F32`: NaN, the two infinities,
  negative zero, and the finite values as rationals.  Every arithmetic result
  is rounded to nearest, ties to even, by `round32`, with gradual underflow
  and overflow to infinity.  A finite `F32` may hold any rational; the values
  a `float` can hold are those `round32` leaves fixed (`F32.representable`).
  Results stated for every `F32` hold in particular for every `float`.
* `int` values (key codes, mouse deltas) are embedded as `Int`; the source
  only compares them and converts them to `float`.
* Urho3D itself is not part of `main.cpp`.  Every engine function whose body
  the source does not contain (quaternion rotation, `SetDirection`, `Yaw`,
  `Pitch`, `Rotate`, streaming a float, the key-code constants) is a field of
  the parameter `Engine`; engine properties (`IsMouseVisible`, `IsVisible`,
  `GetFillMode`, ...) are stored fields that their setter overwrites.
* `static float yaw_` and `static float pitch_` are fields of the state.
-/

namespace UrhoSample

/-! ## Binary32 arithmetic -/

/-- Round to the nearest integer, ties to even. -/
def roundNE (z : ℚ) : ℤ :=
  if z - ⌊z⌋ < 1 / 2 then ⌊z⌋
  else if 1 / 2 < z - ⌊z⌋ then ⌊z⌋ + 1
  else if ⌊z⌋ % 2 = 0 then ⌊z⌋ else ⌊z⌋ + 1

/-- Binary exponent of the binade `x` is rounded in: that of `x`, but not
below the exponent `-126` of the subnormal range. -/
def expo (x : ℚ) : ℤ := max (Int.log 2 |x|) (-126)

/-- Spacing of the binary32 values in the binade of `x` (24-bit significand). -/
def quantum (x : ℚ) : ℚ := (2 : ℚ) ^ (expo x - 23)

/-- Nearest multiple of `quantum x`, ties to the even multiple. -/
def roundQ (x : ℚ) : ℚ := (roundNE (x / quantum x) : ℚ) * quantum x

/-- A binary32 value. -/
inductive F32
  | nan
  | inf (neg : Bool)
  | negZero
  | fin (q : ℚ)
deriving DecidableEq

namespace F32

/-- Zero with the given sign bit. -/
def zero (neg : Bool) : F32 := if neg then negZero else fin 0

/-- Rounding of an exact result to binary32: at or beyond `2^128` in
magnitude it overflows to an infinity; a result rounded to zero keeps the sign
of the exact value. -/
def round32 (x : ℚ) : F32 :=
  if (2 : ℚ) ^ (128 : ℕ) ≤ |roundQ x| then inf (decide (x < 0))
  else if roundQ x = 0 then zero (decide (x < 0))
  else fin (roundQ x)

/-- Conversion `int` to `float`. -/
def ofInt (n : Int) : F32 := round32 (n : ℚ)

/-- The sign bit. -/
def sign : F32 → Bool
  | nan => false
  | inf neg => neg
  | negZero => true
  | fin q => decide (q < 0)

/-- The rational value of a finite operand (zero otherwise). -/
def val : F32 → ℚ
  | fin q => q
  | _ => 0

/-- Whether the value is `+0` or `-0`. -/
def isZero : F32 → Bool
  | negZero => true
  | fin q => decide (q = 0)
  | _ => false

/-- Whether the value is finite (a zero or a non-zero finite value). -/
def isFinite : F32 → Bool
  | negZero => true
  | fin _ => true
  | _ => false

/-- Whether the value is a NaN. -/
def isNaN : F32 → Bool
  | nan => true
  | _ => false

/-- Whether a `float` can hold the value. -/
def representable : F32 → Prop
  | fin q => round32 q = fin q
  | _ => True

instance (x : F32) : Decidable x.representable := by
  cases x <;> unfold representable <;> infer_instance

/-- Float addition `x + y`. -/
def add : F32 → F32 → F32
  | nan, _ => nan
  | _, nan => nan
  | inf a, inf b => if a = b then inf a else nan
  | inf a, _ => inf a
  | _, inf b => inf b
  | negZero, negZero => negZero
  | negZero, fin q => fin q
  | fin q, negZero => fin q
  | fin a, fin b => round32 (a + b)

/-- Float multiplication `x * y`. -/
def mul : F32 → F32 → F32
  | nan, _ => nan
  | _, nan => nan
  | inf a, inf b => inf (xor a b)
  | inf a, y => if y.isZero then nan else inf (xor a y.sign)
  | x, inf b => if x.isZero then nan else inf (xor x.sign b)
  | x, y =>
    if x.val * y.val = 0 then zero (xor x.sign y.sign)
    else round32 (x.val * y.val)

/-- Float division `x / y`; a zero divisor does not trap. -/
def div : F32 → F32 → F32
  | nan, _ => nan
  | _, nan => nan
  | inf _, inf _ => nan
  | inf a, y => inf (xor a y.sign)
  | x, inf b => zero (xor x.sign b)
  | x, y =>
    if y.val = 0 then (if x.val = 0 then nan else inf (xor x.sign y.sign))
    else if x.val = 0 then zero (xor x.sign y.sign)
    else round32 (x.val / y.val)

/-- Float comparison `x < y` (false when either side is a NaN). -/
def lt : F32 → F32 → Bool
  | nan, _ => false
  | _, nan => false
  | inf true, inf true => false
  | inf true, _ => true
  | _, inf true => false
  | inf false, _ => false
  | _, inf false => true
  | x, y => decide (x.val < y.val)

/-- Float comparison `x <= y` (false when either side is a NaN). -/
def le : F32 → F32 → Bool
  | nan, _ => false
  | _, nan => false
  | inf true, _ => true
  | _, inf false => true
  | inf false, _ => false
  | _, inf true => false
  | x, y => decide (x.val ≤ y.val)

/-- Equality up to the sign of a zero. -/
def same (x y : F32) : Prop := x = y ∨ (x.isZero = true ∧ y.isZero = true)

instance (x y : F32) : Decidable (same x y) := by
  unfold same; infer_instance

end F32

/-! ## Engine value types -/

/-- Urho3D `Vector3`. -/
@[ext]
structure Vector3 where
  x_ : F32
  y_ : F32
  z_ : F32
deriving DecidableEq

namespace Vector3

/-- Vector sum, `Vector3::operator +`. -/
def add (a b : Vector3) : Vector3 :=
  ⟨F32.add a.x_ b.x_, F32.add a.y_ b.y_, F32.add a.z_ b.z_⟩

/-- Scaling by a float, `Vector3::operator *(float)`. -/
def mul (a : Vector3) (k : F32) : Vector3 :=
  ⟨F32.mul a.x_ k, F32.mul a.y_ k, F32.mul a.z_ k⟩

instance : Add Vector3 := ⟨add⟩
instance : HMul Vector3 F32 Vector3 := ⟨mul⟩

/-- The constant `Vector3::FORWARD`. -/
def FORWARD : Vector3 := ⟨F32.fin 0, F32.fin 0, F32.fin 1⟩

/-- All three components are zeros (of either sign). -/
def isZero (a : Vector3) : Prop :=
  a.x_.isZero = true ∧ a.y_.isZero = true ∧ a.z_.isZero = true

/-- Componentwise equality up to the sign of a zero. -/
def same (a b : Vector3) : Prop :=
  F32.same a.x_ b.x_ ∧ F32.same a.y_ b.y_ ∧ F32.same a.z_ b.z_

/-- All three components are values a `float` can hold. -/
def representable (a : Vector3) : Prop :=
  a.x_.representable ∧ a.y_.representable ∧ a.z_.representable

instance (a : Vector3) : Decidable a.isZero := by
  unfold isZero; infer_instance

instance (a b : Vector3) : Decidable (same a b) := by
  unfold same; infer_instance

instance (a : Vector3) : Decidable a.representable := by
  unfold representable; infer_instance

end Vector3

/-- Urho3D `IntVector2`, the type of `Input::GetMouseMove`. -/
structure IntVector2 where
  x_ : Int
  y_ : Int
deriving DecidableEq

/-- Modelled from the spec: the camera's fill mode has exactly two states,
solid and wireframe.  The declaration of the engine's `FillMode` enum is not
in the repository; `main.cpp` names and assigns only `FILL_SOLID` and
`FILL_WIREFRAME`, and the camera is created with the engine's default (solid),
so a further value of the engine's enum (Urho3D also declares `FILL_POINT`)
cannot occur in this application. -/
inductive FillMode
  | FILL_SOLID
  | FILL_WIREFRAME
deriving DecidableEq

/-- Urho3D `Clamp(value, min, max)` (MathDefs.h). -/
def Clamp (value min max : F32) : F32 :=
  if F32.lt value min then min
  else if F32.lt max value then max
  else value

/-! ## The engine as a parameter -/

/-- What `main.cpp` uses of Urho3D without containing its code.  `R` is the
type of a node rotation (`Quaternion`). -/
structure Engine (R : Type) where
  /-- Rotating a vector, `Quaternion::operator *(const Vector3&)`. -/
  rotate : R → Vector3 → Vector3
  /-- rotation after `Node::SetDirection(dir)`. -/
  setDirection : Vector3 → R → R
  /-- rotation after `Node::Yaw(angle)`. -/
  yaw : F32 → R → R
  /-- rotation after `Node::Pitch(angle)`. -/
  pitch : F32 → R → R
  /-- rotation after `Node::Rotate(Quaternion(x, y, z))` (Euler angles). -/
  rotateEuler : F32 → F32 → F32 → R → R
  /-- text produced by `std::ostringstream << float`. -/
  streamFloat : F32 → String
  /-- key code `KEY_TAB`. -/
  KEY_TAB : Int
  /-- key code `KEY_ESCAPE`. -/
  KEY_ESCAPE : Int
  /-- key code `KEY_G`. -/
  KEY_G : Int
  /-- key code `KEY_T`. -/
  KEY_T : Int

/-- The four key codes tested by `HandleKeyDown` are pairwise different. -/
def Engine.keysDistinct {R : Type} (eng : Engine R) : Prop :=
  eng.KEY_TAB ≠ eng.KEY_ESCAPE ∧ eng.KEY_TAB ≠ eng.KEY_G ∧ eng.KEY_TAB ≠ eng.KEY_T ∧
  eng.KEY_ESCAPE ≠ eng.KEY_G ∧ eng.KEY_ESCAPE ≠ eng.KEY_T ∧ eng.KEY_G ≠ eng.KEY_T

instance {R : Type} (eng : Engine R) : Decidable eng.keysDistinct := by
  unfold Engine.keysDistinct; infer_instance

/-- Rotating a vector of zeros gives a vector of zeros. -/
def Engine.rotateZero {R : Type} (eng : Engine R) : Prop :=
  ∀ (r : R) (v : Vector3), v.isZero → (eng.rotate r v).isZero

/-! ## Scene nodes -/

/-- The part of an Urho3D `Node` that `HandleUpdate` touches. -/
structure Node (R : Type) where
  position : Vector3
  rotation : R

namespace Node

variable {R : Type}

/-- Method `Node::Translate(delta)` with the default `TS_LOCAL`:
`position_ += rotation_ * delta`. -/
def Translate (eng : Engine R) (delta : Vector3) (n : Node R) : Node R :=
  { n with position := n.position + eng.rotate n.rotation delta }

/-- Method `Node::SetDirection(direction)`. -/
def SetDirection (eng : Engine R) (direction : Vector3) (n : Node R) : Node R :=
  { n with rotation := eng.setDirection direction n.rotation }

/-- Method `Node::Yaw(angle)`. -/
def Yaw (eng : Engine R) (angle : F32) (n : Node R) : Node R :=
  { n with rotation := eng.yaw angle n.rotation }

/-- Method `Node::Pitch(angle)`. -/
def Pitch (eng : Engine R) (angle : F32) (n : Node R) : Node R :=
  { n with rotation := eng.pitch angle n.rotation }

/-- Method `Node::Rotate(Quaternion(x, y, z))`. -/
def Rotate (eng : Engine R) (x y z : F32) (n : Node R) : Node R :=
  { n with rotation := eng.rotateEuler x y z n.rotation }

end Node

/-! ## Application state and per-frame input -/

/-- What `HandleUpdate` reads from the `Input` subsystem in one frame. -/
structure InputFrame where
  /-- Value of `GetQualifierDown(QUAL_SHIFT)`. -/
  qualShift : Bool
  /-- Value of `GetKeyDown(KEY_W)`. -/
  keyW : Bool
  /-- Value of `GetKeyDown(KEY_S)`. -/
  keyS : Bool
  /-- Value of `GetKeyDown(KEY_A)`. -/
  keyA : Bool
  /-- Value of `GetKeyDown(KEY_D)`. -/
  keyD : Bool
  /-- Value of `GetMouseMove()`. -/
  mouseMove : IntVector2
deriving DecidableEq

/-- Everything the two handlers read or write. -/
structure AppState (R : Type) where
  /-- The node `cameraNode_`. -/
  cameraNode_ : Node R
  /-- The node `node_rotating_planet`. -/
  node_rotating_planet : Node R
  /-- The `static float yaw_` of `HandleUpdate`. -/
  yaw_ : F32
  /-- The `static float pitch_` of `HandleUpdate`. -/
  pitch_ : F32
  /-- text of `window_text`. -/
  window_text : String
  /-- Value of `Input::IsMouseVisible()`. -/
  mouseVisible : Bool
  /-- Value of `Input::IsMouseGrabbed()`. -/
  mouseGrabbed : Bool
  /-- Value of `window->IsVisible()`. -/
  windowVisible : Bool
  /-- Value of `camera_->GetFillMode()`. -/
  fillMode : FillMode
  /-- set by `engine_->Exit()`. -/
  exitRequested : Bool

/-- Mouse sensitivity as degrees per pixel, the literal `0.1f`: the binary32
value nearest to `1/10`. -/
def MOUSE_SENSITIVITY : F32 := F32.fin (13421773 / 134217728)

/-- The fixed first part of the overlay text. -/
def helpText : String :=
  "WASD, mouse and shift to move. T to toggle fill mode,\nG to toggle GUI, Tab to toggle mouse mode, Esc to quit.\n"

/-- The quotient `1/timeStep` streamed into the overlay text. -/
def frameRate (timeStep : F32) : F32 := F32.div (F32.fin 1) timeStep

variable {R : Type}

/-- Handler `SampleApplication::HandleUpdate` (main.cpp 256-307).  Integer
literals used as floats (`1`, `0`, `-22`, `10`, `-1`) are the finite values
they convert to. -/
def HandleUpdate (eng : Engine R) (timeStep : F32) (input : InputFrame)
    (s : AppState R) : AppState R :=
  let str := helpText ++ (eng.streamFloat (frameRate timeStep)).take 6 ++ " FPS "
  let s := { s with window_text := str }
  let s := { s with node_rotating_planet :=
              (s.node_rotating_planet.Rotate eng (F32.fin 0)
                (F32.mul (F32.fin (-22)) timeStep) (F32.fin 0)) }
  let MOVE_SPEED : F32 := F32.fin 10
  let MOVE_SPEED : F32 :=
    if input.qualShift then F32.mul MOVE_SPEED (F32.fin 10) else MOVE_SPEED
  let s := if input.keyW then
      { s with cameraNode_ := (s.cameraNode_.Translate eng
          ((⟨F32.fin 0, F32.fin 0, F32.fin 1⟩ : Vector3) * MOVE_SPEED * timeStep)) }
    else s
  let s := if input.keyS then
      { s with cameraNode_ := (s.cameraNode_.Translate eng
          ((⟨F32.fin 0, F32.fin 0, F32.fin (-1)⟩ : Vector3) * MOVE_SPEED * timeStep)) }
    else s
  let s := if input.keyA then
      { s with cameraNode_ := (s.cameraNode_.Translate eng
          ((⟨F32.fin (-1), F32.fin 0, F32.fin 0⟩ : Vector3) * MOVE_SPEED * timeStep)) }
    else s
  let s := if input.keyD then
      { s with cameraNode_ := (s.cameraNode_.Translate eng
          ((⟨F32.fin 1, F32.fin 0, F32.fin 0⟩ : Vector3) * MOVE_SPEED * timeStep)) }
    else s
  if !s.mouseVisible then
    let mouseMove := input.mouseMove
    if mouseMove.x_ > -2000000000 ∧ mouseMove.y_ > -2000000000 then
      let yaw := F32.add s.yaw_ (F32.mul MOUSE_SENSITIVITY (F32.ofInt mouseMove.x_))
      let pitch := F32.add s.pitch_ (F32.mul MOUSE_SENSITIVITY (F32.ofInt mouseMove.y_))
      let pitch := Clamp pitch (F32.fin (-90)) (F32.fin 90)
      { s with
        yaw_ := yaw
        pitch_ := pitch
        cameraNode_ :=
          ((s.cameraNode_.SetDirection eng Vector3.FORWARD).Yaw eng yaw).Pitch eng pitch }
    else s
  else s

/-- Handler `SampleApplication::HandleKeyDown` (main.cpp 309-325). -/
def HandleKeyDown (eng : Engine R) (key : Int) (s : AppState R) : AppState R :=
  if key = eng.KEY_TAB then
    let s := { s with mouseVisible := !s.mouseVisible }
    { s with mouseGrabbed := !s.mouseGrabbed }
  else if key = eng.KEY_ESCAPE then
    { s with exitRequested := true }
  else if key = eng.KEY_G then
    { s with windowVisible := !s.windowVisible }
  else if key = eng.KEY_T then
    { s with fillMode :=
        if s.fillMode = FillMode.FILL_WIREFRAME then FillMode.FILL_SOLID
        else FillMode.FILL_WIREFRAME }
  else s

/-- The two events the application subscribes to in `Start`. -/
inductive Event
  | update (timeStep : F32) (input : InputFrame)
  | keyDown (key : Int)

/-- Deliver one event to its handler. -/
def dispatch (eng : Engine R) (s : AppState R) : Event → AppState R
  | Event.update timeStep input => HandleUpdate eng timeStep input s
  | Event.keyDown key => HandleKeyDown eng key s

/-- Deliver a finite sequence of events in order. -/
def run (eng : Engine R) (evs : List Event) (s : AppState R) : AppState R :=
  evs.foldl (dispatch eng) s

/-! ## `set_model` -/

/-- A call `set_model` makes on the model component. -/
inductive ModelCall
  | SetModel (resource : String)
  | SetMaterial (index : Nat) (resource : String)
deriving DecidableEq

/-- The NUL character that ends a C string. -/
def NUL : Char := Char.ofNat 0

/-- What a `const char*` reader sees of `s.c_str()`: the characters before
the first NUL. -/
def c_str (s : String) : String := String.mk (s.data.takeWhile (fun c => c ≠ NUL))

/-- Largest value of `int`. -/
def INT_MAX : Nat := 2147483647

/-- The `for(int i=0;getline(file,line);i++)` loop of `set_model`: `stream`
holds the lines `getline` has yet to deliver, `i` is the loop counter.  The
result is `none` when `i++` overflows `int`, which the language leaves
undefined. -/
def materialLoop : Nat → List String → Option (List ModelCall)
  | _, [] => some []
  | i, line :: stream =>
    if i = INT_MAX then none
    else (materialLoop (i + 1) stream).map
      (fun calls => ModelCall.SetMaterial i (c_str line) :: calls)

/-- Function `set_model` (main.cpp 54-66): the calls made on `model`, in
order, or `none` when the loop counter overflows.  `openFile path` is `none`
when `std::ifstream` fails to open `path`, else the lines that successive
`getline` calls deliver.  Resource and file names pass through `c_str()`. -/
def set_model (openFile : String → Option (List String)) (model_name : String) :
    Option (List ModelCall) :=
  let filename_model := model_name ++ ".mdl"
  let first := ModelCall.SetModel (c_str filename_model)
  let filename_txt := model_name ++ ".txt"
  match openFile (c_str filename_txt) with
  | some stream => (materialLoop 0 stream).map (fun calls => first :: calls)
  | none => some [first]

/-! ## A concrete engine for instantiating the results -/

/-- A small concrete engine: a rotation is recorded as the pair of yaw and
pitch angles applied since the last `SetDirection`, vectors are left in world
axes, finite floats are streamed by their integer part only, and the key codes
are the SDL key codes of Tab, Esc, g and t. -/
def sampleEngine : Engine (F32 × F32) where
  rotate := fun _ v => v
  setDirection := fun _ _ => (F32.fin 0, F32.fin 0)
  yaw := fun a r => (F32.add r.1 a, r.2)
  pitch := fun a r => (r.1, F32.add r.2 a)
  rotateEuler := fun _ y _ r => (F32.add r.1 y, r.2)
  streamFloat := fun v =>
    match v with
    | F32.nan => "nan"
    | F32.inf false => "inf"
    | F32.inf true => "-inf"
    | F32.negZero => "-0"
    | F32.fin q => toString q.floor
  KEY_TAB := 9
  KEY_ESCAPE := 27
  KEY_G := 103
  KEY_T := 116

/-- The state `Start` leaves behind: camera at the origin looking forward,
both accumulators zero. -/
def sampleState : AppState (F32 × F32) where
  cameraNode_ := ⟨⟨F32.fin 0, F32.fin 0, F32.fin 0⟩, (F32.fin 0, F32.fin 0)⟩
  node_rotating_planet := ⟨⟨F32.fin (-4), F32.fin (13421773 / 8388608), F32.fin 6⟩,
    (F32.fin 0, F32.fin 0)⟩
  yaw_ := F32.fin 0
  pitch_ := F32.fin 0
  window_text := ""
  mouseVisible := false
  mouseGrabbed := false
  windowVisible := true
  fillMode := FillMode.FILL_SOLID
  exitRequested := false

/-- The guard of the look update: cursor hidden and neither axis of the mouse
delta at or below the sentinel `-2000000000`. -/
def lookActive (input : InputFrame) (s : AppState R) : Prop :=
  s.mouseVisible = false ∧
    input.mouseMove.x_ > -2000000000 ∧ input.mouseMove.y_ > -2000000000

instance (input : InputFrame) (s : AppState R) : Decidable (lookActive input s) := by
  unfold lookActive; infer_instance

/-- The pitch is a finite value in `[-90, 90]`. -/
def pitchInRange (p : F32) : Prop :=
  F32.le (F32.fin (-90)) p = true ∧ F32.le p (F32.fin 90) = true

/-- The value `MOVE_SPEED` has when the translations are applied: `10`, or
`100` while shift is held. -/
def speed (input : InputFrame) : ℚ := if input.qualShift then 100 else 10

/-! ## Concrete frames and states used to instantiate the results -/

/-- A frame with no key held and the mouse moved by `(10, 950)`. -/
def lookFrame : InputFrame := ⟨false, false, false, false, false, ⟨10, 950⟩⟩

/-- A frame with no key held and the mouse moved by `(dx, 0)`. -/
def turnFrame (dx : Int) : InputFrame := ⟨false, false, false, false, false, ⟨dx, 0⟩⟩

/-- A frame with only W held and no mouse movement. -/
def forwardFrame : InputFrame := ⟨false, true, false, false, false, ⟨0, 0⟩⟩

/-- A frame with W and shift held and no mouse movement. -/
def fastForwardFrame : InputFrame := ⟨true, true, false, false, false, ⟨0, 0⟩⟩

/-- A frame whose mouse delta carries the sentinel on the x axis. -/
def sentinelFrame : InputFrame := ⟨false, false, false, false, false, ⟨-2000000000, 5⟩⟩

/-- The state of `sampleState` with the yaw accumulator at `200000000`. -/
def turnedState : AppState (F32 × F32) := { sampleState with yaw_ := F32.fin 200000000 }

/-- The state of `sampleState` with the camera at `z = 2^24`. -/
def farState : AppState (F32 × F32) :=
  { sampleState with
    cameraNode_ := ⟨⟨F32.fin 0, F32.fin 0, F32.fin 16777216⟩, (F32.fin 0, F32.fin 0)⟩ }

/-- The literal `0.1f` as an elapsed time. -/
def tenth : F32 := F32.fin (13421773 / 134217728)

/-- The binary32 value nearest to `1/60`. -/
def sixtieth : F32 := F32.fin (8947849 / 536870912)

/-- The binary32 value nearest to `1/100`. -/
def hundredth : F32 := F32.fin (5368709 / 536870912)

/-! ## Rounding to the nearest binary32 value -/

theorem roundNE_near {z : ℚ} {n : ℤ} (h : |z - n| < 1 / 2) : roundNE z = n := by
  rw [abs_lt] at h
  obtain ⟨h1, h2⟩ := h
  unfold roundNE
  rcases le_or_lt (n : ℚ) z with hz | hz
  · have hf : ⌊z⌋ = n := by
      rw [Int.floor_eq_iff]
      constructor <;> linarith
    rw [hf, if_pos (by linarith)]
  · have hf : ⌊z⌋ = n - 1 := by
      rw [Int.floor_eq_iff]
      push_cast
      constructor <;> linarith
    rw [hf]
    push_cast
    rw [if_neg (by linarith), if_pos (by linarith)]
    ring

theorem roundNE_intCast (n : ℤ) : roundNE (n : ℚ) = n :=
  roundNE_near (by simp)

theorem floor_le_roundNE (z : ℚ) : ⌊z⌋ ≤ roundNE z := by
  unfold roundNE
  split_ifs <;> omega

theorem roundNE_le_floor_succ (z : ℚ) : roundNE z ≤ ⌊z⌋ + 1 := by
  unfold roundNE
  split_ifs <;> omega

theorem roundNE_mono {z w : ℚ} (h : z ≤ w) : roundNE z ≤ roundNE w := by
  have hfl : ⌊z⌋ ≤ ⌊w⌋ := Int.floor_mono h
  rcases hfl.lt_or_eq with hlt | heq
  · calc roundNE z ≤ ⌊z⌋ + 1 := roundNE_le_floor_succ z
      _ ≤ ⌊w⌋ := hlt
      _ ≤ roundNE w := floor_le_roundNE w
  · unfold roundNE
    rw [← heq]
    have hd : z - ⌊z⌋ ≤ w - ⌊z⌋ := by linarith
    split_ifs <;> first | omega | (exfalso; linarith)

theorem roundNE_neg (z : ℚ) : roundNE (-z) = -roundNE z := by
  by_cases hz : (⌊z⌋ : ℚ) = z
  · rw [← hz, ← Int.cast_neg, roundNE_intCast, roundNE_intCast]
  · have hlt : (⌊z⌋ : ℚ) < z := lt_of_le_of_ne (Int.floor_le z) hz
    have hlt2 : z < ⌊z⌋ + 1 := Int.lt_floor_add_one z
    have hf : ⌊-z⌋ = -⌊z⌋ - 1 := by
      rw [Int.floor_eq_iff]
      push_cast
      constructor <;> linarith
    unfold roundNE
    rw [hf]
    push_cast
    split_ifs <;> first | omega | (exfalso; linarith)

theorem roundNE_le_of_le {z : ℚ} {n : ℤ} (h : z ≤ n) : roundNE z ≤ n := by
  have := roundNE_mono h
  rwa [roundNE_intCast] at this

theorem le_roundNE_of_le {z : ℚ} {n : ℤ} (h : (n : ℚ) ≤ z) : n ≤ roundNE z := by
  have := roundNE_mono h
  rwa [roundNE_intCast] at this

theorem quantum_pos (x : ℚ) : 0 < quantum x := by
  unfold quantum
  positivity

theorem quantum_neg (x : ℚ) : quantum (-x) = quantum x := by
  unfold quantum expo
  rw [abs_neg]

theorem roundQ_neg (x : ℚ) : roundQ (-x) = -roundQ x := by
  unfold roundQ
  rw [quantum_neg, neg_div, roundNE_neg]
  push_cast
  ring

theorem roundQ_zero : roundQ 0 = 0 := by
  unfold roundQ
  rw [zero_div]
  have : roundNE 0 = 0 := by exact_mod_cast roundNE_intCast 0
  rw [this]
  simp

theorem roundQ_nonneg {x : ℚ} (h : 0 ≤ x) : 0 ≤ roundQ x := by
  unfold roundQ
  have hq := quantum_pos x
  have h0 : ((0 : ℤ) : ℚ) ≤ x / quantum x := by
    simp only [Int.cast_zero]
    exact div_nonneg h hq.le
  have := le_roundNE_of_le h0
  have h2 : (0 : ℚ) ≤ (roundNE (x / quantum x) : ℚ) := by exact_mod_cast this
  exact mul_nonneg h2 hq.le

theorem lt_zpow_expo_succ {x : ℚ} : |x| < (2 : ℚ) ^ (expo x + 1) := by
  have h1 : |x| < ((2 : ℕ) : ℚ) ^ (Int.log 2 |x| + 1) :=
    Int.lt_zpow_succ_log_self (by norm_num) |x|
  have h2 : Int.log 2 |x| + 1 ≤ expo x + 1 := by unfold expo; omega
  have h3 : ((2 : ℕ) : ℚ) ^ (Int.log 2 |x| + 1) ≤ (2 : ℚ) ^ (expo x + 1) := by
    push_cast
    exact zpow_le_zpow_right₀ (by norm_num) h2
  exact lt_of_lt_of_le h1 h3

theorem zpow_expo_le {x : ℚ} (hx : x ≠ 0) (he : -126 < expo x) : (2 : ℚ) ^ expo x ≤ |x| := by
  have hlog : expo x = Int.log 2 |x| := by unfold expo at he ⊢; omega
  rw [hlog]
  have := Int.zpow_log_le_self (b := 2) (r := |x|) (by norm_num) (abs_pos.mpr hx)
  exact_mod_cast this

theorem expo_mono {x y : ℚ} (hx : x ≠ 0) (h : |x| ≤ |y|) : expo x ≤ expo y := by
  unfold expo
  have := Int.log_mono_right (b := 2) (abs_pos.mpr hx) h
  omega

theorem expo_eq_of_bounds {x : ℚ} {e : ℤ} (he : -126 ≤ e) (hlo : (2 : ℚ) ^ e ≤ |x|)
    (hhi : |x| < (2 : ℚ) ^ (e + 1)) : expo x = e := by
  have hpos : 0 < |x| := lt_of_lt_of_le (by positivity) hlo
  have h1 : e ≤ Int.log 2 |x| := by
    rw [← Int.zpow_le_iff_le_log (by norm_num) hpos]
    exact_mod_cast hlo
  have h2 : Int.log 2 |x| < e + 1 := by
    rw [← Int.lt_zpow_iff_log_lt (by norm_num) hpos]
    exact_mod_cast hhi
  unfold expo
  omega

/-- Rounding at a known binade: the integer multiple nearest to `x`. -/
theorem roundQ_eval {x : ℚ} (e n : ℤ) (he : -126 ≤ e) (hlo : (2 : ℚ) ^ e ≤ |x|)
    (hhi : |x| < (2 : ℚ) ^ (e + 1)) (hn : |x / (2 : ℚ) ^ (e - 23) - n| < 1 / 2) :
    roundQ x = n * (2 : ℚ) ^ (e - 23) := by
  unfold roundQ quantum
  rw [expo_eq_of_bounds he hlo hhi, roundNE_near hn]

theorem two_pow_24_mul (e : ℤ) : (16777216 : ℚ) * (2 : ℚ) ^ (e - 23) = (2 : ℚ) ^ (e + 1) := by
  have h : (16777216 : ℚ) = (2 : ℚ) ^ (24 : ℤ) := by norm_num
  rw [h, ← zpow_add₀ (by norm_num : (2 : ℚ) ≠ 0)]
  congr 1
  ring

theorem two_pow_23_mul (e : ℤ) : (8388608 : ℚ) * (2 : ℚ) ^ (e - 23) = (2 : ℚ) ^ e := by
  have h : (8388608 : ℚ) = (2 : ℚ) ^ (23 : ℤ) := by norm_num
  rw [h, ← zpow_add₀ (by norm_num : (2 : ℚ) ≠ 0)]
  congr 1
  ring

theorem roundQ_le_zpow {x : ℚ} (hx : 0 < x) : roundQ x ≤ (2 : ℚ) ^ (expo x + 1) := by
  unfold roundQ
  have hq := quantum_pos x
  have hlt : |x| < (2 : ℚ) ^ (expo x + 1) := lt_zpow_expo_succ
  rw [abs_of_pos hx] at hlt
  have hdiv : x / quantum x ≤ (((2 : ℤ) ^ 24 : ℤ) : ℚ) := by
    rw [div_le_iff₀ hq]
    unfold quantum
    have : (((2 : ℤ) ^ 24 : ℤ) : ℚ) * (2 : ℚ) ^ (expo x - 23) = (2 : ℚ) ^ (expo x + 1) := by
      push_cast
      exact two_pow_24_mul (expo x)
    rw [this]
    exact hlt.le
  have h1 := roundNE_le_of_le hdiv
  have h2 : (roundNE (x / quantum x) : ℚ) ≤ (((2 : ℤ) ^ 24 : ℤ) : ℚ) := by exact_mod_cast h1
  calc (roundNE (x / quantum x) : ℚ) * quantum x
      ≤ (((2 : ℤ) ^ 24 : ℤ) : ℚ) * quantum x := mul_le_mul_of_nonneg_right h2 hq.le
    _ = (2 : ℚ) ^ (expo x + 1) := by
      unfold quantum
      push_cast
      exact two_pow_24_mul (expo x)

theorem zpow_le_roundQ {x : ℚ} (hx : 0 < x) (he : -126 < expo x) :
    (2 : ℚ) ^ expo x ≤ roundQ x := by
  unfold roundQ
  have hq := quantum_pos x
  have hle : (2 : ℚ) ^ expo x ≤ |x| := zpow_expo_le hx.ne' he
  rw [abs_of_pos hx] at hle
  have hprod : (((2 : ℤ) ^ 23 : ℤ) : ℚ) * quantum x = (2 : ℚ) ^ expo x := by
    unfold quantum
    push_cast
    exact two_pow_23_mul (expo x)
  have hdiv : (((2 : ℤ) ^ 23 : ℤ) : ℚ) ≤ x / quantum x := by
    rw [le_div_iff₀ hq, hprod]
    exact hle
  have h1 := le_roundNE_of_le hdiv
  have h2 : (((2 : ℤ) ^ 23 : ℤ) : ℚ) ≤ (roundNE (x / quantum x) : ℚ) := by exact_mod_cast h1
  calc (2 : ℚ) ^ expo x = (((2 : ℤ) ^ 23 : ℤ) : ℚ) * quantum x := hprod.symm
    _ ≤ (roundNE (x / quantum x) : ℚ) * quantum x := mul_le_mul_of_nonneg_right h2 hq.le

theorem roundQ_mono_pos {x y : ℚ} (hx : 0 < x) (h : x ≤ y) : roundQ x ≤ roundQ y := by
  have hy : 0 < y := lt_of_lt_of_le hx h
  have habs : |x| ≤ |y| := by rw [abs_of_pos hx, abs_of_pos hy]; exact h
  have hexp : expo x ≤ expo y := expo_mono hx.ne' habs
  rcases hexp.lt_or_eq with hlt | heq
  · have h126 : -126 < expo y := by
      have : -126 ≤ expo x := by unfold expo; omega
      omega
    calc roundQ x ≤ (2 : ℚ) ^ (expo x + 1) := roundQ_le_zpow hx
      _ ≤ (2 : ℚ) ^ expo y := zpow_le_zpow_right₀ (by norm_num) (by omega)
      _ ≤ roundQ y := zpow_le_roundQ hy h126
  · have hq : quantum x = quantum y := by unfold quantum; rw [heq]
    unfold roundQ
    rw [hq]
    have hqp := quantum_pos y
    have hdiv : x / quantum y ≤ y / quantum y := div_le_div_of_nonneg_right h hqp.le
    have := roundNE_mono hdiv
    have h2 : (roundNE (x / quantum y) : ℚ) ≤ (roundNE (y / quantum y) : ℚ) := by
      exact_mod_cast this
    exact mul_le_mul_of_nonneg_right h2 hqp.le

theorem roundQ_mono {x y : ℚ} (h : x ≤ y) : roundQ x ≤ roundQ y := by
  rcases lt_trichotomy x 0 with hx | hx | hx
  · rcases lt_or_le y 0 with hy | hy
    · have h1 : roundQ (-y) ≤ roundQ (-x) := roundQ_mono_pos (by linarith) (by linarith)
      rw [roundQ_neg, roundQ_neg] at h1
      linarith
    · have h1 : 0 ≤ roundQ (-x) := roundQ_nonneg (by linarith)
      rw [roundQ_neg] at h1
      have h2 := roundQ_nonneg hy
      linarith
  · subst hx
    rw [roundQ_zero]
    exact roundQ_nonneg h
  · exact roundQ_mono_pos hx h

namespace F32

theorem roundQ_nonpos {x : ℚ} (h : x ≤ 0) : roundQ x ≤ 0 := by
  have h1 : 0 ≤ roundQ (-x) := roundQ_nonneg (by linarith)
  rw [roundQ_neg] at h1
  linarith

/-- The three shapes of a rounded result. -/
theorem round32_cases (x : ℚ) :
    (round32 x = inf (decide (x < 0)) ∧ (2 : ℚ) ^ (128 : ℕ) ≤ |roundQ x|) ∨
    (round32 x = zero (decide (x < 0)) ∧ roundQ x = 0) ∨
    (round32 x = fin (roundQ x) ∧ roundQ x ≠ 0 ∧ |roundQ x| < (2 : ℚ) ^ (128 : ℕ)) := by
  unfold round32
  by_cases h1 : (2 : ℚ) ^ (128 : ℕ) ≤ |roundQ x|
  · left
    exact ⟨if_pos h1, h1⟩
  · by_cases h2 : roundQ x = 0
    · right; left
      exact ⟨by rw [if_neg h1, if_pos h2], h2⟩
    · right; right
      exact ⟨by rw [if_neg h1, if_neg h2], h2, not_le.mp h1⟩

theorem round32_ne_nan (x : ℚ) : round32 x ≠ nan := by
  rcases round32_cases x with ⟨h, -⟩ | ⟨h, -⟩ | ⟨h, -⟩ <;> rw [h]
  · simp
  · unfold zero; split_ifs <;> simp
  · simp

/-- Rounding at a known binade. -/
theorem round32_eval {x : ℚ} (e n : ℤ) (he : -126 ≤ e) (hlo : (2 : ℚ) ^ e ≤ |x|)
    (hhi : |x| < (2 : ℚ) ^ (e + 1)) (hn : |x / (2 : ℚ) ^ (e - 23) - n| < 1 / 2)
    (hn0 : (n : ℚ) * (2 : ℚ) ^ (e - 23) ≠ 0)
    (hfin : |(n : ℚ) * (2 : ℚ) ^ (e - 23)| < (2 : ℚ) ^ (128 : ℕ)) :
    round32 x = fin (n * (2 : ℚ) ^ (e - 23)) := by
  have hq := roundQ_eval e n he hlo hhi hn
  unfold round32
  rw [hq, if_neg (not_le.mpr hfin), if_neg hn0]

theorem round32_zero : round32 0 = fin 0 := by
  unfold round32
  rw [roundQ_zero]
  norm_num [zero]

@[simp]
theorem le_fin_fin (a b : ℚ) : le (fin a) (fin b) = decide (a ≤ b) := rfl

@[simp]
theorem lt_fin_fin (a b : ℚ) : lt (fin a) (fin b) = decide (a < b) := rfl

theorem le_zero_left (s : Bool) (y : F32) : le (zero s) y = le (fin 0) y := by
  cases s <;> rcases y with _ | ⟨_ | _⟩ | _ | p <;> rfl

theorem le_zero_right (s : Bool) (x : F32) : le x (zero s) = le x (fin 0) := by
  cases s <;> rcases x with _ | ⟨_ | _⟩ | _ | p <;> rfl

theorem le_inf_false {x : F32} (h : x ≠ nan) : le x (inf false) = true := by
  rcases x with _ | ⟨_ | _⟩ | _ | p
  · exact absurd rfl h
  all_goals rfl

theorem inf_true_le {y : F32} (h : y ≠ nan) : le (inf true) y = true := by
  rcases y with _ | ⟨_ | _⟩ | _ | p
  · exact absurd rfl h
  all_goals rfl

/-- Rounding is monotone. -/
theorem round32_mono {a b : ℚ} (h : a ≤ b) : le (round32 a) (round32 b) = true := by
  have hq := roundQ_mono h
  have hbig : (0 : ℚ) < (2 : ℚ) ^ (128 : ℕ) := by positivity
  rcases round32_cases a with ⟨ha, ha2⟩ | ⟨ha, ha2⟩ | ⟨ha, ha2, ha3⟩
  · -- a overflows
    by_cases ha0 : a < 0
    · rw [ha, decide_eq_true ha0]
      exact inf_true_le (round32_ne_nan b)
    · have hra : 0 ≤ roundQ a := roundQ_nonneg (not_lt.mp ha0)
      rw [abs_of_nonneg hra] at ha2
      have hrb : 0 ≤ roundQ b := le_trans hra hq
      have hb0 : ¬ b < 0 := by push_neg; linarith [not_lt.mp ha0]
      have hb : round32 b = inf false := by
        unfold round32
        rw [if_pos (by rw [abs_of_nonneg hrb]; linarith), decide_eq_false hb0]
      rw [ha, hb, decide_eq_false ha0]
      rfl
  · -- a rounds to zero
    rw [ha, le_zero_left]
    rcases round32_cases b with ⟨hb, hb2⟩ | ⟨hb, hb2⟩ | ⟨hb, hb2, hb3⟩
    · by_cases hb0 : b < 0
      · have hrb : roundQ b ≤ 0 := roundQ_nonpos hb0.le
        rw [abs_of_nonpos hrb] at hb2
        exfalso; linarith
      · rw [hb, decide_eq_false hb0]; rfl
    · rw [hb, le_zero_right]; simp
    · rw [hb]; simp; linarith
  · -- a rounds to a finite non-zero value
    rw [ha]
    rcases round32_cases b with ⟨hb, hb2⟩ | ⟨hb, hb2⟩ | ⟨hb, hb2, hb3⟩
    · by_cases hb0 : b < 0
      · have hrb : roundQ b ≤ 0 := roundQ_nonpos hb0.le
        rw [abs_of_nonpos hrb] at hb2
        have : roundQ a ≤ 0 := by linarith
        rw [abs_of_nonpos this] at ha3
        exfalso; linarith
      · rw [hb, decide_eq_false hb0]; rfl
    · rw [hb, le_zero_right]; simp; linarith
    · rw [hb]; simp; exact hq

theorem ofInt_ne_nan (n : Int) : ofInt n ≠ nan := round32_ne_nan _

theorem ofInt_mono {m n : Int} (h : m ≤ n) : le (ofInt m) (ofInt n) = true :=
  round32_mono (by exact_mod_cast h)

/-- Multiplying by a positive finite constant is a rounding of the product. -/
theorem mul_pos_fin {c : ℚ} (hc : 0 < c) (p : ℚ) : mul (fin c) (fin p) = round32 (c * p) := by
  show (if c * p = 0 then zero (xor (decide (c < 0)) (decide (p < 0))) else round32 (c * p))
    = round32 (c * p)
  split_ifs with h
  · have hp : p = 0 := by
      rcases mul_eq_zero.mp h with h1 | h1
      · exact absurd h1 hc.ne'
      · exact h1
    subst hp
    rw [mul_zero, round32_zero]
    simp [zero, not_lt.mpr hc.le]
  · rfl

theorem mul_pos_negZero {c : ℚ} (hc : 0 < c) : mul (fin c) negZero = negZero := by
  show (if c * 0 = 0 then zero (xor (decide (c < 0)) true) else round32 (c * 0)) = negZero
  simp [zero, not_lt.mpr hc.le]

theorem mul_pos_inf {c : ℚ} (hc : 0 < c) (b : Bool) : mul (fin c) (inf b) = inf b := by
  show (if (fin c).isZero then nan else inf (xor (fin c).sign b)) = inf b
  simp [isZero, sign, hc.ne', not_lt.mpr hc.le]

theorem mul_pos_ne_nan {c : ℚ} (hc : 0 < c) {x : F32} (hx : x ≠ nan) :
    mul (fin c) x ≠ nan := by
  rcases x with _ | b | _ | p
  · exact absurd rfl hx
  · rw [mul_pos_inf hc]; simp
  · rw [mul_pos_negZero hc]; simp
  · rw [mul_pos_fin hc]; exact round32_ne_nan _

/-- Multiplication by a positive finite constant is monotone. -/
theorem mul_pos_mono {c : ℚ} (hc : 0 < c) {x y : F32} (h : le x y = true) :
    le (mul (fin c) x) (mul (fin c) y) = true := by
  rcases x with _ | ⟨_ | _⟩ | _ | p <;> rcases y with _ | ⟨_ | _⟩ | _ | q <;>
    first
    | (exfalso; revert h; simp [le]; done)
    | skip
  all_goals
    simp only [mul_pos_inf hc, mul_pos_negZero hc, mul_pos_fin hc]
  all_goals
    first
    | rfl
    | exact le_inf_false (round32_ne_nan _)
    | exact inf_true_le (round32_ne_nan _)
    | skip
  · -- negZero, fin q
    have hq : (0 : ℚ) ≤ q := by simpa [le, val] using h
    have := round32_mono (mul_nonneg hc.le hq)
    rw [round32_zero] at this
    have h2 : le negZero (round32 (c * q)) = le (fin 0) (round32 (c * q)) := le_zero_left true _
    rw [h2]; exact this
  · -- fin p, negZero
    have hp : p ≤ 0 := by simpa [le, val] using h
    have := round32_mono (mul_nonpos_of_nonneg_of_nonpos hc.le hp)
    rw [round32_zero] at this
    have h2 : le (round32 (c * p)) negZero = le (round32 (c * p)) (fin 0) := le_zero_right true _
    rw [h2]; exact this
  · -- fin p, fin q
    have hpq : p ≤ q := by simpa using h
    exact round32_mono (mul_le_mul_of_nonneg_left hpq hc.le)

end F32

namespace F32

/-- Rounding a positive value at a known binade. -/
theorem round32_eval_pos {x : ℚ} (e n : ℤ) (he : -126 ≤ e) (hlo : (2 : ℚ) ^ e ≤ x)
    (hhi : x < (2 : ℚ) ^ (e + 1)) (hn1 : (n : ℚ) - 1 / 2 < x / (2 : ℚ) ^ (e - 23))
    (hn2 : x / (2 : ℚ) ^ (e - 23) < (n : ℚ) + 1 / 2) (hn0 : 0 < n)
    (hfin : (n : ℚ) * (2 : ℚ) ^ (e - 23) < (2 : ℚ) ^ (128 : ℕ)) :
    round32 x = fin (n * (2 : ℚ) ^ (e - 23)) := by
  have hx : 0 < x := lt_of_lt_of_le (by positivity) hlo
  have hpos : (0 : ℚ) < (n : ℚ) * (2 : ℚ) ^ (e - 23) :=
    mul_pos (by exact_mod_cast hn0) (by positivity)
  apply round32_eval e n he
  · rw [abs_of_pos hx]; exact hlo
  · rw [abs_of_pos hx]; exact hhi
  · rw [abs_lt]; constructor <;> linarith
  · exact hpos.ne'
  · rw [abs_of_pos hpos]; exact hfin

/-- Rounding a negative value at a known binade. -/
theorem round32_eval_neg {x : ℚ} (e n : ℤ) (he : -126 ≤ e) (hlo : (2 : ℚ) ^ e ≤ -x)
    (hhi : -x < (2 : ℚ) ^ (e + 1)) (hn1 : (n : ℚ) - 1 / 2 < x / (2 : ℚ) ^ (e - 23))
    (hn2 : x / (2 : ℚ) ^ (e - 23) < (n : ℚ) + 1 / 2) (hn0 : n < 0)
    (hfin : -((n : ℚ) * (2 : ℚ) ^ (e - 23)) < (2 : ℚ) ^ (128 : ℕ)) :
    round32 x = fin (n * (2 : ℚ) ^ (e - 23)) := by
  have hx : x < 0 := by
    have : (0 : ℚ) < (2 : ℚ) ^ e := by positivity
    linarith
  have hneg : (n : ℚ) * (2 : ℚ) ^ (e - 23) < 0 :=
    mul_neg_of_neg_of_pos (by exact_mod_cast hn0) (by positivity)
  apply round32_eval e n he
  · rw [abs_of_neg hx]; exact hlo
  · rw [abs_of_neg hx]; exact hhi
  · rw [abs_lt]; constructor <;> linarith
  · exact hneg.ne
  · rw [abs_of_neg hneg]; exact hfin

theorem round32_1 : round32 1 = fin 1 := by
  have h := round32_eval_pos (x := 1) 0 8388608 (by norm_num) (by norm_num) (by norm_num)
    (by norm_num) (by norm_num) (by norm_num) (by norm_num)
  rw [h]; norm_num

theorem round32_10 : round32 10 = fin 10 := by
  have h := round32_eval_pos (x := 10) 3 10485760 (by norm_num) (by norm_num) (by norm_num)
    (by norm_num) (by norm_num) (by norm_num) (by norm_num)
  rw [h]; norm_num

theorem round32_100 : round32 100 = fin 100 := by
  have h := round32_eval_pos (x := 100) 6 13107200 (by norm_num) (by norm_num) (by norm_num)
    (by norm_num) (by norm_num) (by norm_num) (by norm_num)
  rw [h]; norm_num

theorem round32_neg10 : round32 (-10) = fin (-10) := by
  have h := round32_eval_neg (x := -10) 3 (-10485760) (by norm_num) (by norm_num)
    (by norm_num) (by norm_num) (by norm_num) (by norm_num) (by norm_num)
  rw [h]; norm_num

theorem round32_neg100 : round32 (-100) = fin (-100) := by
  have h := round32_eval_neg (x := -100) 6 (-13107200) (by norm_num) (by norm_num)
    (by norm_num) (by norm_num) (by norm_num) (by norm_num) (by norm_num)
  rw [h]; norm_num

end F32

namespace F32

theorem add_finite_ne_nan {a x : F32} (ha : a.isFinite = true) (hx : x ≠ nan) :
    add a x ≠ nan := by
  rcases a with _ | _ | _ | p <;> rcases x with _ | b | _ | q <;>
    first
    | (exfalso; revert ha; simp [isFinite]; done)
    | exact absurd rfl hx
    | (show round32 _ ≠ nan; exact round32_ne_nan _)
    | (intro h; cases h)

/-- Adding to a finite value a `float` can hold is monotone. -/
theorem add_mono {a x y : F32} (ha : a.isFinite = true) (hrep : a.representable)
    (h : le x y = true) : le (add a x) (add a y) = true := by
  rcases a with _ | _ | _ | p
  · exact absurd ha (by simp [isFinite])
  · exact absurd ha (by simp [isFinite])
  · -- a = -0
    rcases x with _ | ⟨_ | _⟩ | _ | p <;> rcases y with _ | ⟨_ | _⟩ | _ | q <;>
      first
      | (exfalso; revert h; simp [le]; done)
      | exact h
  · -- a = fin p
    have hp : round32 p = fin p := hrep
    rcases x with _ | ⟨_ | _⟩ | _ | u <;> rcases y with _ | ⟨_ | _⟩ | _ | v <;>
      first
      | (exfalso; revert h; simp [le]; done)
      | skip
    all_goals
      first
      | rfl
      | (show le _ (inf false) = true; exact le_inf_false (round32_ne_nan _))
      | (show le (inf true) _ = true; exact inf_true_le (round32_ne_nan _))
      | skip
    · show le (fin p) (fin p) = true
      simp
    · -- -0, fin v
      have hv : (0 : ℚ) ≤ v := by simpa [le, val] using h
      show le (fin p) (round32 (p + v)) = true
      rw [← hp]
      exact round32_mono (by linarith)
    · -- fin u, -0
      have hu : u ≤ 0 := by simpa [le, val] using h
      show le (round32 (p + u)) (fin p) = true
      rw [← hp]
      exact round32_mono (by linarith)
    · have huv : u ≤ v := by simpa using h
      show le (round32 (p + u)) (round32 (p + v)) = true
      exact round32_mono (by linarith)

end F32

theorem Clamp_nan : Clamp F32.nan (F32.fin (-90)) (F32.fin 90) = F32.nan := rfl

theorem Clamp_inf_true : Clamp (F32.inf true) (F32.fin (-90)) (F32.fin 90) = F32.fin (-90) :=
  rfl

theorem Clamp_inf_false : Clamp (F32.inf false) (F32.fin (-90)) (F32.fin 90) = F32.fin 90 :=
  rfl

theorem Clamp_negZero : Clamp F32.negZero (F32.fin (-90)) (F32.fin 90) = F32.negZero := by
  unfold Clamp
  have h1 : F32.lt F32.negZero (F32.fin (-90)) = false := by
    show decide ((0 : ℚ) < -90) = false
    norm_num
  have h2 : F32.lt (F32.fin 90) F32.negZero = false := by
    show decide ((90 : ℚ) < 0) = false
    norm_num
  rw [h1, h2]
  rfl

theorem Clamp_fin (q : ℚ) :
    Clamp (F32.fin q) (F32.fin (-90)) (F32.fin 90) =
      if q < -90 then F32.fin (-90) else if 90 < q then F32.fin 90 else F32.fin q := by
  unfold Clamp
  simp only [F32.lt_fin_fin, decide_eq_true_eq]

/-- Clamping anything but a NaN gives a finite value in `[-90, 90]`. -/
theorem Clamp_range {v : F32} (hv : v ≠ F32.nan) :
    pitchInRange (Clamp v (F32.fin (-90)) (F32.fin 90)) := by
  unfold pitchInRange
  rcases v with _ | ⟨_ | _⟩ | _ | q
  · exact absurd rfl hv
  · rw [Clamp_inf_false]; simp
  · rw [Clamp_inf_true]; simp
  · rw [Clamp_negZero]
    constructor
    · show decide ((-90 : ℚ) ≤ 0) = true
      norm_num
    · show decide ((0 : ℚ) ≤ 90) = true
      norm_num
  · rw [Clamp_fin]
    split_ifs with h1 h2
    · simp
    · simp
    · simp only [F32.le_fin_fin, decide_eq_true_eq]
      constructor <;> linarith

/-- Clamping is monotone. -/
theorem Clamp_mono {x y : F32} (h : F32.le x y = true) :
    F32.le (Clamp x (F32.fin (-90)) (F32.fin 90)) (Clamp y (F32.fin (-90)) (F32.fin 90))
      = true := by
  rcases x with _ | ⟨_ | _⟩ | _ | p <;> rcases y with _ | ⟨_ | _⟩ | _ | q <;>
    first
    | (exfalso; revert h; simp [F32.le]; done)
    | skip
  all_goals
    simp only [Clamp_inf_true, Clamp_inf_false, Clamp_negZero, Clamp_fin]
  all_goals
    first
    | (solve | simp)
    | skip
  · show decide ((-90 : ℚ) ≤ 0) = true
    norm_num
  · split_ifs <;> simp
    linarith
  · show decide ((0 : ℚ) ≤ 90) = true
    norm_num
  · rfl
  · have hq : (0 : ℚ) ≤ q := by simpa [F32.le, F32.val] using h
    split_ifs with h1 h2
    · exfalso; linarith
    · show decide ((0 : ℚ) ≤ 90) = true
      norm_num
    · show decide ((0 : ℚ) ≤ q) = true
      simpa using hq
  · split_ifs <;> simp
    linarith
  · have hp : p ≤ 0 := by simpa [F32.le, F32.val] using h
    split_ifs with h1 h2
    · show decide ((-90 : ℚ) ≤ 0) = true
      norm_num
    · exfalso; linarith
    · show decide (p ≤ (0 : ℚ)) = true
      simpa using hp
  · have hpq : p ≤ q := by simpa using h
    split_ifs <;> simp <;> linarith

theorem pitchInRange_isFinite {p : F32} (h : pitchInRange p) : p.isFinite = true := by
  unfold pitchInRange at h
  rcases p with _ | ⟨_ | _⟩ | _ | q
  · exact absurd h.1 (by simp [F32.le])
  · exact absurd h.2 (by simp [F32.le])
  · exact absurd h.1 (by simp [F32.le])
  · rfl
  · rfl

theorem MOUSE_SENSITIVITY_pos : (0 : ℚ) < 13421773 / 134217728 := by norm_num

/-! ## What `HandleUpdate` does to each part of the state -/

theorem HandleUpdate_yaw (eng : Engine R) (t : F32) (input : InputFrame) (s : AppState R) :
    (HandleUpdate eng t input s).yaw_ =
      if lookActive input s then
        F32.add s.yaw_ (F32.mul MOUSE_SENSITIVITY (F32.ofInt input.mouseMove.x_))
      else s.yaw_ := by
  rcases input with ⟨sh, w, k, a, d, mm⟩
  rcases s with ⟨cam, planet, yaw, pitch, txt, mv, mg, wv, fm, ex⟩
  unfold HandleUpdate lookActive
  cases w <;> cases k <;> cases a <;> cases d <;> cases mv <;>
    simp <;> split_ifs <;> simp_all

theorem HandleUpdate_pitch (eng : Engine R) (t : F32) (input : InputFrame) (s : AppState R) :
    (HandleUpdate eng t input s).pitch_ =
      if lookActive input s then
        Clamp (F32.add s.pitch_ (F32.mul MOUSE_SENSITIVITY (F32.ofInt input.mouseMove.y_)))
          (F32.fin (-90)) (F32.fin 90)
      else s.pitch_ := by
  rcases input with ⟨sh, w, k, a, d, mm⟩
  rcases s with ⟨cam, planet, yaw, pitch, txt, mv, mg, wv, fm, ex⟩
  unfold HandleUpdate lookActive
  cases w <;> cases k <;> cases a <;> cases d <;> cases mv <;>
    simp <;> split_ifs <;> simp_all

theorem HandleUpdate_rotation (eng : Engine R) (t : F32) (input : InputFrame)
    (s : AppState R) :
    (HandleUpdate eng t input s).cameraNode_.rotation =
      if lookActive input s then
        eng.pitch
          (Clamp (F32.add s.pitch_ (F32.mul MOUSE_SENSITIVITY (F32.ofInt input.mouseMove.y_)))
            (F32.fin (-90)) (F32.fin 90))
          (eng.yaw (F32.add s.yaw_ (F32.mul MOUSE_SENSITIVITY (F32.ofInt input.mouseMove.x_)))
            (eng.setDirection Vector3.FORWARD s.cameraNode_.rotation))
      else s.cameraNode_.rotation := by
  rcases input with ⟨sh, w, k, a, d, mm⟩
  rcases s with ⟨cam, planet, yaw, pitch, txt, mv, mg, wv, fm, ex⟩
  unfold HandleUpdate lookActive
  cases w <;> cases k <;> cases a <;> cases d <;> cases mv <;>
    simp [Node.Translate, Node.SetDirection, Node.Yaw, Node.Pitch] <;>
    split_ifs <;> simp_all

theorem HandleUpdate_window_text (eng : Engine R) (t : F32) (input : InputFrame)
    (s : AppState R) :
    (HandleUpdate eng t input s).window_text =
      helpText ++ (eng.streamFloat (F32.div (F32.fin 1) t)).take 6 ++ " FPS " := by
  rcases input with ⟨sh, w, k, a, d, mm⟩
  rcases s with ⟨cam, planet, yaw, pitch, txt, mv, mg, wv, fm, ex⟩
  unfold HandleUpdate frameRate
  cases w <;> cases k <;> cases a <;> cases d <;> cases mv <;>
    simp <;> split_ifs <;> rfl

theorem mul_10_10 : F32.mul (F32.fin 10) (F32.fin 10) = F32.fin 100 := by
  rw [F32.mul_pos_fin (by norm_num)]
  norm_num [F32.round32_100]

/-- The camera position after `HandleUpdate`, as the source applies it: one
local translation after another, each under the rotation the camera had when
the handler was entered. -/
theorem HandleUpdate_position_seq (eng : Engine R) (t : F32) (input : InputFrame)
    (s : AppState R) :
    (HandleUpdate eng t input s).cameraNode_.position =
      let r := s.cameraNode_.rotation
      let p := s.cameraNode_.position
      let p := if input.keyW then p + eng.rotate r
          ((⟨F32.fin 0, F32.fin 0, F32.fin 1⟩ : Vector3) * F32.fin (speed input) * t) else p
      let p := if input.keyS then p + eng.rotate r
          ((⟨F32.fin 0, F32.fin 0, F32.fin (-1)⟩ : Vector3) * F32.fin (speed input) * t) else p
      let p := if input.keyA then p + eng.rotate r
          ((⟨F32.fin (-1), F32.fin 0, F32.fin 0⟩ : Vector3) * F32.fin (speed input) * t) else p
      if input.keyD then p + eng.rotate r
          ((⟨F32.fin 1, F32.fin 0, F32.fin 0⟩ : Vector3) * F32.fin (speed input) * t) else p := by
  rcases input with ⟨sh, w, k, a, d, mm⟩
  rcases s with ⟨cam, planet, yaw, pitch, txt, mv, mg, wv, fm, ex⟩
  unfold HandleUpdate speed
  cases sh <;> cases w <;> cases k <;> cases a <;> cases d <;> cases mv <;>
    simp [mul_10_10, Node.Translate, Node.SetDirection, Node.Yaw, Node.Pitch] <;>
    split_ifs <;> rfl

theorem not_lookActive_iff (input : InputFrame) (s : AppState R) :
    ¬ lookActive input s ↔
      (s.mouseVisible = true ∨ input.mouseMove.x_ ≤ -2000000000 ∨
        input.mouseMove.y_ ≤ -2000000000) := by
  unfold lookActive
  cases s.mouseVisible <;> simp
  omega

/-! ## The local translation vectors -/

namespace Vector3

@[simp]
theorem add_x (a b : Vector3) : (a + b).x_ = F32.add a.x_ b.x_ := rfl
@[simp]
theorem add_y (a b : Vector3) : (a + b).y_ = F32.add a.y_ b.y_ := rfl
@[simp]
theorem add_z (a b : Vector3) : (a + b).z_ = F32.add a.z_ b.z_ := rfl
@[simp]
theorem mul_x (a : Vector3) (k : F32) : (a * k).x_ = F32.mul a.x_ k := rfl
@[simp]
theorem mul_y (a : Vector3) (k : F32) : (a * k).y_ = F32.mul a.y_ k := rfl
@[simp]
theorem mul_z (a : Vector3) (k : F32) : (a * k).z_ = F32.mul a.z_ k := rfl

end Vector3

namespace F32

theorem mul_fin_fin (a b : ℚ) :
    mul (fin a) (fin b) =
      if a * b = 0 then zero (xor (decide (a < 0)) (decide (b < 0))) else round32 (a * b) :=
  rfl

theorem mul_zero_pos {q : ℚ} (hq : 0 < q) : mul (fin 0) (fin q) = fin 0 := by
  rw [mul_fin_fin]
  simp [zero, not_lt.mpr hq.le]

theorem mul_neg_pos {c q : ℚ} (hc : c < 0) (hq : 0 < q) :
    mul (fin c) (fin q) = round32 (c * q) := by
  rw [mul_fin_fin, if_neg (mul_ne_zero hc.ne hq.ne')]

theorem isZero_zero (b : Bool) : (zero b).isZero = true := by
  cases b <;> simp [zero, isZero]

theorem mul_isZero_right {x t : F32} (hx : x.isFinite = true) (ht : t.isZero = true) :
    (mul x t).isZero = true := by
  rcases x with _ | _ | _ | p
  · exact absurd hx (by simp [isFinite])
  · exact absurd hx (by simp [isFinite])
  · rcases t with _ | _ | _ | q
    · exact absurd ht (by simp [isZero])
    · exact absurd ht (by simp [isZero])
    · show (if (0 : ℚ) * 0 = 0 then zero (xor true true) else round32 (0 * 0)).isZero = true
      simp [isZero_zero]
    · show (if (0 : ℚ) * q = 0 then zero (xor true (decide (q < 0)))
        else round32 (0 * q)).isZero = true
      simp [isZero_zero]
  · rcases t with _ | _ | _ | q
    · exact absurd ht (by simp [isZero])
    · exact absurd ht (by simp [isZero])
    · show (if p * 0 = 0 then zero (xor (decide (p < 0)) true) else round32 (p * 0)).isZero
        = true
      simp [isZero_zero]
    · have hq : q = 0 := by simpa [isZero] using ht
      subst hq
      rw [mul_fin_fin]
      simp [isZero_zero]

/-- Adding a zero to a value a `float` can hold changes at most the sign of a
zero. -/
theorem add_zero_same {x z : F32} (hx : x.representable) (hz : z.isZero = true) :
    same (add x z) x ∧ (add x z).representable := by
  rcases z with _ | _ | _ | q
  · exact absurd hz (by simp [isZero])
  · exact absurd hz (by simp [isZero])
  · rcases x with _ | b | _ | p
    · exact ⟨Or.inl rfl, trivial⟩
    · exact ⟨Or.inl rfl, trivial⟩
    · exact ⟨Or.inl rfl, trivial⟩
    · exact ⟨Or.inl rfl, hx⟩
  · have hq : q = 0 := by simpa [isZero] using hz
    subst hq
    rcases x with _ | b | _ | p
    · exact ⟨Or.inl rfl, trivial⟩
    · exact ⟨Or.inl rfl, trivial⟩
    · exact ⟨Or.inr ⟨by simp [add, isZero], rfl⟩, round32_zero⟩
    · have hp : round32 p = fin p := hx
      have h : add (fin p) (fin 0) = fin p := by
        show round32 (p + 0) = fin p
        rw [add_zero, hp]
      rw [h]
      exact ⟨Or.inl rfl, hx⟩

theorem same_trans {x y z : F32} (h1 : same x y) (h2 : same y z) : same x z := by
  rcases h1 with rfl | ⟨hx, hy⟩
  · exact h2
  · rcases h2 with rfl | ⟨_, hz⟩
    · exact Or.inr ⟨hx, hy⟩
    · exact Or.inr ⟨hx, hz⟩

theorem div_one_zero {t : F32} (ht : t.isZero = true) : div (fin 1) t = inf t.sign := by
  rcases t with _ | _ | _ | q
  · exact absurd ht (by simp [isZero])
  · exact absurd ht (by simp [isZero])
  · show (if (0 : ℚ) = 0 then (if (1 : ℚ) = 0 then nan else inf (xor (decide ((1 : ℚ) < 0)) true))
      else if (1 : ℚ) = 0 then zero (xor (decide ((1 : ℚ) < 0)) true)
      else round32 (1 / 0)) = inf true
    simp
  · have hq : q = 0 := by simpa [isZero] using ht
    subst hq
    show (if (0 : ℚ) = 0 then
      (if (1 : ℚ) = 0 then nan else inf (xor (decide ((1 : ℚ) < 0)) (decide ((0 : ℚ) < 0))))
      else if (1 : ℚ) = 0 then zero (xor (decide ((1 : ℚ) < 0)) (decide ((0 : ℚ) < 0)))
      else round32 (1 / 0)) = inf (decide ((0 : ℚ) < 0))
    simp

end F32

theorem axis_forward (input : InputFrame) :
    (⟨F32.fin 0, F32.fin 0, F32.fin 1⟩ : Vector3) * F32.fin (speed input)
      = ⟨F32.fin 0, F32.fin 0, F32.fin (speed input)⟩ := by
  unfold speed
  cases input.qualShift <;> ext <;>
    simp [F32.mul_fin_fin, F32.zero, F32.round32_10, F32.round32_100]

theorem axis_back (input : InputFrame) :
    (⟨F32.fin 0, F32.fin 0, F32.fin (-1)⟩ : Vector3) * F32.fin (speed input)
      = ⟨F32.fin 0, F32.fin 0, F32.fin (-speed input)⟩ := by
  unfold speed
  cases input.qualShift <;> ext <;>
    simp [F32.mul_fin_fin, F32.zero, F32.round32_neg10, F32.round32_neg100]

theorem axis_left (input : InputFrame) :
    (⟨F32.fin (-1), F32.fin 0, F32.fin 0⟩ : Vector3) * F32.fin (speed input)
      = ⟨F32.fin (-speed input), F32.fin 0, F32.fin 0⟩ := by
  unfold speed
  cases input.qualShift <;> ext <;>
    simp [F32.mul_fin_fin, F32.zero, F32.round32_neg10, F32.round32_neg100]

theorem axis_right (input : InputFrame) :
    (⟨F32.fin 1, F32.fin 0, F32.fin 0⟩ : Vector3) * F32.fin (speed input)
      = ⟨F32.fin (speed input), F32.fin 0, F32.fin 0⟩ := by
  unfold speed
  cases input.qualShift <;> ext <;>
    simp [F32.mul_fin_fin, F32.zero, F32.round32_10, F32.round32_100]

theorem speed_pos (input : InputFrame) : 0 < speed input := by
  unfold speed
  split_ifs <;> norm_num

/-- The camera position after `HandleUpdate` for a finite positive
`timeStep`: each held key adds, in the order W, S, A, D, the rotation of a
local vector whose one non-zero component is `speed * timeStep` or its
negative, rounded to binary32. -/
theorem HandleUpdate_position_pos (eng : Engine R) (q : ℚ) (hq : 0 < q)
    (input : InputFrame) (s : AppState R) :
    (HandleUpdate eng (F32.fin q) input s).cameraNode_.position =
      let r := s.cameraNode_.rotation
      let p := s.cameraNode_.position
      let p := if input.keyW then p + eng.rotate r
          ⟨F32.fin 0, F32.fin 0, F32.round32 (speed input * q)⟩ else p
      let p := if input.keyS then p + eng.rotate r
          ⟨F32.fin 0, F32.fin 0, F32.round32 (-(speed input * q))⟩ else p
      let p := if input.keyA then p + eng.rotate r
          ⟨F32.round32 (-(speed input * q)), F32.fin 0, F32.fin 0⟩ else p
      if input.keyD then p + eng.rotate r
          ⟨F32.round32 (speed input * q), F32.fin 0, F32.fin 0⟩ else p := by
  have hs := speed_pos input
  have hW : (⟨F32.fin 0, F32.fin 0, F32.fin (speed input)⟩ : Vector3) * F32.fin q
      = ⟨F32.fin 0, F32.fin 0, F32.round32 (speed input * q)⟩ := by
    ext <;> simp [F32.mul_zero_pos hq, F32.mul_pos_fin hs]
  have hS : (⟨F32.fin 0, F32.fin 0, F32.fin (-speed input)⟩ : Vector3) * F32.fin q
      = ⟨F32.fin 0, F32.fin 0, F32.round32 (-(speed input * q))⟩ := by
    ext <;> simp [F32.mul_zero_pos hq, F32.mul_neg_pos (neg_lt_zero.mpr hs) hq]
  have hA : (⟨F32.fin (-speed input), F32.fin 0, F32.fin 0⟩ : Vector3) * F32.fin q
      = ⟨F32.round32 (-(speed input * q)), F32.fin 0, F32.fin 0⟩ := by
    ext <;> simp [F32.mul_zero_pos hq, F32.mul_neg_pos (neg_lt_zero.mpr hs) hq]
  have hD : (⟨F32.fin (speed input), F32.fin 0, F32.fin 0⟩ : Vector3) * F32.fin q
      = ⟨F32.round32 (speed input * q), F32.fin 0, F32.fin 0⟩ := by
    ext <;> simp [F32.mul_zero_pos hq, F32.mul_pos_fin hs]
  rw [HandleUpdate_position_seq]
  simp only [axis_forward, axis_back, axis_left, axis_right, hW, hS, hA, hD]

/-! ## A zero `timeStep` -/

namespace Vector3

theorem vec_add_zero_same {v d : Vector3} (hv : v.representable) (hd : d.isZero) :
    same (v + d) v ∧ (v + d).representable := by
  obtain ⟨h1, h2, h3⟩ := hv
  obtain ⟨d1, d2, d3⟩ := hd
  have hx := F32.add_zero_same h1 d1
  have hy := F32.add_zero_same h2 d2
  have hz := F32.add_zero_same h3 d3
  exact ⟨⟨hx.1, hy.1, hz.1⟩, ⟨hx.2, hy.2, hz.2⟩⟩

theorem vec_same_refl (v : Vector3) : same v v := ⟨Or.inl rfl, Or.inl rfl, Or.inl rfl⟩

theorem vec_same_trans {a b c : Vector3} (h1 : same a b) (h2 : same b c) : same a c :=
  ⟨F32.same_trans h1.1 h2.1, F32.same_trans h1.2.1 h2.2.1, F32.same_trans h1.2.2 h2.2.2⟩

theorem mul_isZero {v : Vector3} {t : F32}
    (hv : v.x_.isFinite = true ∧ v.y_.isFinite = true ∧ v.z_.isFinite = true)
    (ht : t.isZero = true) : (v * t).isZero :=
  ⟨F32.mul_isZero_right hv.1 ht, F32.mul_isZero_right hv.2.1 ht,
    F32.mul_isZero_right hv.2.2 ht⟩

end Vector3

theorem translate_zero_step (eng : Engine R) (hrot : eng.rotateZero) (r : R) (b : Bool)
    {p p0 d : Vector3} (hd : d.isZero) (hp : Vector3.same p p0 ∧ p.representable) :
    Vector3.same (if b then p + eng.rotate r d else p) p0 ∧
      (if b then p + eng.rotate r d else p).representable := by
  cases b
  · exact hp
  · have h := Vector3.vec_add_zero_same hp.2 (hrot r d hd)
    exact ⟨Vector3.vec_same_trans h.1 hp.1, h.2⟩

/-- With a zero `timeStep` every translation is by a vector of zeros, so the
camera position changes at most in the sign of a zero component. -/
theorem HandleUpdate_position_zero (eng : Engine R) (hrot : eng.rotateZero) (t : F32)
    (ht : t.isZero = true) (input : InputFrame) (s : AppState R)
    (hrep : s.cameraNode_.position.representable) :
    Vector3.same (HandleUpdate eng t input s).cameraNode_.position s.cameraNode_.position := by
  rw [HandleUpdate_position_seq]
  simp only [axis_forward, axis_back, axis_left, axis_right]
  have h0 : Vector3.same s.cameraNode_.position s.cameraNode_.position ∧
      s.cameraNode_.position.representable := ⟨Vector3.vec_same_refl _, hrep⟩
  have h1 := translate_zero_step eng hrot s.cameraNode_.rotation input.keyW
    (Vector3.mul_isZero (v := ⟨F32.fin 0, F32.fin 0, F32.fin (speed input)⟩) ⟨rfl, rfl, rfl⟩ ht) h0
  have h2 := translate_zero_step eng hrot s.cameraNode_.rotation input.keyS
    (Vector3.mul_isZero (v := ⟨F32.fin 0, F32.fin 0, F32.fin (-speed input)⟩) ⟨rfl, rfl, rfl⟩ ht) h1
  have h3 := translate_zero_step eng hrot s.cameraNode_.rotation input.keyA
    (Vector3.mul_isZero (v := ⟨F32.fin (-speed input), F32.fin 0, F32.fin 0⟩) ⟨rfl, rfl, rfl⟩ ht) h2
  have h4 := translate_zero_step eng hrot s.cameraNode_.rotation input.keyD
    (Vector3.mul_isZero (v := ⟨F32.fin (speed input), F32.fin 0, F32.fin 0⟩) ⟨rfl, rfl, rfl⟩ ht) h3
  exact h4.1

/-! ## What `HandleKeyDown` does -/

theorem HandleKeyDown_pitch (eng : Engine R) (key : Int) (s : AppState R) :
    (HandleKeyDown eng key s).pitch_ = s.pitch_ := by
  unfold HandleKeyDown
  split_ifs <;> rfl

theorem HandleKeyDown_T (eng : Engine R) (hk : eng.keysDistinct) (s : AppState R) :
    HandleKeyDown eng eng.KEY_T s =
      { s with fillMode :=
          if s.fillMode = FillMode.FILL_WIREFRAME then FillMode.FILL_SOLID
          else FillMode.FILL_WIREFRAME } := by
  obtain ⟨-, -, h3, -, h5, h6⟩ := hk
  unfold HandleKeyDown
  rw [if_neg (Ne.symm h3), if_neg (Ne.symm h5), if_neg (Ne.symm h6), if_pos rfl]

theorem HandleKeyDown_T_twice (eng : Engine R) (hk : eng.keysDistinct) (s : AppState R) :
    HandleKeyDown eng eng.KEY_T (HandleKeyDown eng eng.KEY_T s) = s := by
  rw [HandleKeyDown_T eng hk, HandleKeyDown_T eng hk]
  rcases s with ⟨cam, planet, yaw, pitch, txt, mv, mg, wv, fm, ex⟩
  cases fm <;> simp

theorem HandleKeyDown_pose (eng : Engine R) (key : Int) (s : AppState R) :
    (HandleKeyDown eng key s).cameraNode_ = s.cameraNode_ ∧
    (HandleKeyDown eng key s).node_rotating_planet = s.node_rotating_planet ∧
    (HandleKeyDown eng key s).yaw_ = s.yaw_ ∧
    (HandleKeyDown eng key s).window_text = s.window_text := by
  unfold HandleKeyDown
  split_ifs <;> exact ⟨rfl, rfl, rfl, rfl⟩

/-! ## Sequences of events -/

theorem look_sum_ne_nan {a : F32} (ha : a.isFinite = true) (n : Int) :
    F32.add a (F32.mul MOUSE_SENSITIVITY (F32.ofInt n)) ≠ F32.nan :=
  F32.add_finite_ne_nan ha (F32.mul_pos_ne_nan MOUSE_SENSITIVITY_pos (F32.ofInt_ne_nan n))

theorem dispatch_pitch_range (eng : Engine R) (e : Event) (s : AppState R)
    (h : pitchInRange s.pitch_) : pitchInRange (dispatch eng s e).pitch_ := by
  cases e with
  | update t input =>
    show pitchInRange (HandleUpdate eng t input s).pitch_
    rw [HandleUpdate_pitch]
    split_ifs
    · exact Clamp_range (look_sum_ne_nan (pitchInRange_isFinite h) _)
    · exact h
  | keyDown key =>
    show pitchInRange (HandleKeyDown eng key s).pitch_
    rw [HandleKeyDown_pitch]
    exact h

theorem run_pitch_range (eng : Engine R) (evs : List Event) (s : AppState R)
    (h : pitchInRange s.pitch_) : pitchInRange (run eng evs s).pitch_ := by
  induction evs generalizing s with
  | nil => exact h
  | cons e evs ih => exact ih (dispatch eng s e) (dispatch_pitch_range eng e s h)

/-! ## The material loop and C strings -/

theorem materialLoop_eq (i : Nat) (stream : List String) (h : i + stream.length ≤ INT_MAX) :
    materialLoop i stream =
      some ((stream.enumFrom i).map (fun p => ModelCall.SetMaterial p.1 (c_str p.2))) := by
  induction stream generalizing i with
  | nil => rfl
  | cons line stream ih =>
    have hi : i ≠ INT_MAX := by
      simp only [List.length_cons] at h
      omega
    have h2 : i + 1 + stream.length ≤ INT_MAX := by
      simp only [List.length_cons] at h
      omega
    simp [materialLoop, hi, ih (i + 1) h2, List.enumFrom]

theorem materialLoop_overflow (i : Nat) (stream : List String) (hi : i ≤ INT_MAX)
    (h : INT_MAX < i + stream.length) : materialLoop i stream = none := by
  induction stream generalizing i with
  | nil => simp at h; omega
  | cons line stream ih =>
    by_cases hmax : i = INT_MAX
    · simp [materialLoop, hmax]
    · have h2 : INT_MAX < i + 1 + stream.length := by
        simp only [List.length_cons] at h
        omega
      simp [materialLoop, hmax, ih (i + 1) (by omega) h2]

theorem c_str_eq_self (s : String) (h : ∀ c ∈ s.data, c ≠ NUL) : c_str s = s := by
  unfold c_str
  have : s.data.takeWhile (fun c => decide (c ≠ NUL)) = s.data := by
    rw [List.takeWhile_eq_self_iff]
    intro c hc
    simpa using h c hc
  rw [this]

theorem c_str_append_literal (s t : String) (h : ∀ c ∈ s.data, c ≠ NUL)
    (ht : ∀ c ∈ t.data, c ≠ NUL) : c_str (s ++ t) = s ++ t := by
  apply c_str_eq_self
  intro c hc
  rw [String.data_append, List.mem_append] at hc
  rcases hc with hc | hc
  · exact h c hc
  · exact ht c hc

/-! ## Facts about the concrete engine -/

theorem sampleEngine_rotateZero : sampleEngine.rotateZero := by
  intro r v hv
  exact hv

theorem sampleEngine_keysDistinct : sampleEngine.keysDistinct := by
  decide

/-! ## Concrete binary32 results -/

namespace F32

/-- Rounding a positive value at a known binade, with the result named. -/
theorem round32_pos_eq {x y : ℚ} (e n : ℤ) (he : -126 ≤ e) (hlo : (2 : ℚ) ^ e ≤ x)
    (hhi : x < (2 : ℚ) ^ (e + 1)) (hn1 : (n : ℚ) - 1 / 2 < x / (2 : ℚ) ^ (e - 23))
    (hn2 : x / (2 : ℚ) ^ (e - 23) < (n : ℚ) + 1 / 2) (hn0 : 0 < n)
    (hfin : (n : ℚ) * (2 : ℚ) ^ (e - 23) < (2 : ℚ) ^ (128 : ℕ))
    (hy : (n : ℚ) * (2 : ℚ) ^ (e - 23) = y) : round32 x = fin y := by
  rw [← hy]
  exact round32_eval_pos e n he hlo hhi hn1 hn2 hn0 hfin

theorem round32_2 : round32 2 = fin 2 :=
  round32_pos_eq 1 8388608 (by norm_num) (by norm_num) (by norm_num) (by norm_num)
    (by norm_num) (by norm_num) (by norm_num) (by norm_num)

theorem round32_3 : round32 3 = fin 3 :=
  round32_pos_eq 1 12582912 (by norm_num) (by norm_num) (by norm_num) (by norm_num)
    (by norm_num) (by norm_num) (by norm_num) (by norm_num)

theorem round32_95 : round32 95 = fin 95 :=
  round32_pos_eq 6 12451840 (by norm_num) (by norm_num) (by norm_num) (by norm_num)
    (by norm_num) (by norm_num) (by norm_num) (by norm_num)

theorem round32_950 : round32 950 = fin 950 :=
  round32_pos_eq 9 15564800 (by norm_num) (by norm_num) (by norm_num) (by norm_num)
    (by norm_num) (by norm_num) (by norm_num) (by norm_num)

theorem round32_200000000 : round32 200000000 = fin 200000000 :=
  round32_pos_eq 27 12500000 (by norm_num) (by norm_num) (by norm_num) (by norm_num)
    (by norm_num) (by norm_num) (by norm_num) (by norm_num)

theorem round32_16777216 : round32 16777216 = fin 16777216 :=
  round32_pos_eq 24 8388608 (by norm_num) (by norm_num) (by norm_num) (by norm_num)
    (by norm_num) (by norm_num) (by norm_num) (by norm_num)

/-- The literal `0.1f` is a binary32 value. -/
theorem round32_tenth : round32 (13421773 / 134217728) = fin (13421773 / 134217728) :=
  round32_pos_eq (-4) 13421773 (by norm_num) (by norm_num) (by norm_num) (by norm_num)
    (by norm_num) (by norm_num) (by norm_num) (by norm_num)

/-- Twice `0.1f` is exact. -/
theorem round32_two_tenths :
    round32 (13421773 / 134217728 * 2) = fin (13421773 / 67108864) :=
  round32_pos_eq (-3) 13421773 (by norm_num) (by norm_num) (by norm_num) (by norm_num)
    (by norm_num) (by norm_num) (by norm_num) (by norm_num)

/-- Three times `0.1f` rounds to `0.300000012`, not to `3/10`. -/
theorem round32_three_tenths :
    round32 (13421773 / 134217728 * 3) = fin (5033165 / 16777216) :=
  round32_pos_eq (-2) 10066330 (by norm_num) (by norm_num) (by norm_num) (by norm_num)
    (by norm_num) (by norm_num) (by norm_num) (by norm_num)

theorem round32_5033165 : round32 (5033165 / 16777216) = fin (5033165 / 16777216) :=
  round32_pos_eq (-2) 10066330 (by norm_num) (by norm_num) (by norm_num) (by norm_num)
    (by norm_num) (by norm_num) (by norm_num) (by norm_num)

/-- Ten times `0.1f` rounds to `1`. -/
theorem round32_ten_tenths : round32 (13421773 / 134217728 * 10) = fin 1 :=
  round32_pos_eq 0 8388608 (by norm_num) (by norm_num) (by norm_num) (by norm_num)
    (by norm_num) (by norm_num) (by norm_num) (by norm_num)

/-- A hundred times `0.1f` rounds to `10`. -/
theorem round32_hundred_tenths : round32 (100 * (13421773 / 134217728)) = fin 10 :=
  round32_pos_eq 3 10485760 (by norm_num) (by norm_num) (by norm_num) (by norm_num)
    (by norm_num) (by norm_num) (by norm_num) (by norm_num)

/-- The product of `0.1f` and 950 rounds to `95`. -/
theorem round32_950_tenths : round32 (13421773 / 134217728 * 950) = fin 95 :=
  round32_pos_eq 6 12451840 (by norm_num) (by norm_num) (by norm_num) (by norm_num)
    (by norm_num) (by norm_num) (by norm_num) (by norm_num)

/-- A yaw of `200000000` absorbs an increment of `0.1f`. -/
theorem round32_absorb_one :
    round32 (200000000 + 13421773 / 134217728) = fin 200000000 :=
  round32_pos_eq 27 12500000 (by norm_num) (by norm_num) (by norm_num) (by norm_num)
    (by norm_num) (by norm_num) (by norm_num) (by norm_num)

/-- A yaw of `200000000` absorbs an increment of twice `0.1f`. -/
theorem round32_absorb_two :
    round32 (200000000 + 13421773 / 67108864) = fin 200000000 :=
  round32_pos_eq 27 12500000 (by norm_num) (by norm_num) (by norm_num) (by norm_num)
    (by norm_num) (by norm_num) (by norm_num) (by norm_num)

/-- The elapsed time used below, the float nearest `1/60`, is a binary32 value. -/
theorem round32_sixtieth : round32 (8947849 / 536870912) = fin (8947849 / 536870912) :=
  round32_pos_eq (-6) 8947849 (by norm_num) (by norm_num) (by norm_num) (by norm_num)
    (by norm_num) (by norm_num) (by norm_num) (by norm_num)

/-- Ten times the binary32 value of `1/60` rounds to `0.166666672`. -/
theorem round32_ten_sixtieths :
    round32 (10 * (8947849 / 536870912)) = fin (11184811 / 67108864) :=
  round32_pos_eq (-3) 11184811 (by norm_num) (by norm_num) (by norm_num) (by norm_num)
    (by norm_num) (by norm_num) (by norm_num) (by norm_num)

theorem round32_11184811 : round32 (11184811 / 67108864) = fin (11184811 / 67108864) :=
  round32_pos_eq (-3) 11184811 (by norm_num) (by norm_num) (by norm_num) (by norm_num)
    (by norm_num) (by norm_num) (by norm_num) (by norm_num)

/-- A coordinate of `2^24` absorbs a step of `0.166666672`. -/
theorem round32_absorb_step :
    round32 (16777216 + 11184811 / 67108864) = fin 16777216 :=
  round32_pos_eq 24 8388608 (by norm_num) (by norm_num) (by norm_num) (by norm_num)
    (by norm_num) (by norm_num) (by norm_num) (by norm_num)

end F32

namespace F32

theorem add_fin_fin (a b : ℚ) : add (fin a) (fin b) = round32 (a + b) := rfl

theorem round32_2000000000 : round32 2000000000 = fin 2000000000 :=
  round32_pos_eq 30 15625000 (by norm_num) (by norm_num) (by norm_num) (by norm_num)
    (by norm_num) (by norm_num) (by norm_num) (by norm_num)

/-- The product of `0.1f` and `2000000000` rounds to `200000000`. -/
theorem round32_big_turn : round32 (13421773 / 134217728 * 2000000000) = fin 200000000 :=
  round32_pos_eq 27 12500000 (by norm_num) (by norm_num) (by norm_num) (by norm_num)
    (by norm_num) (by norm_num) (by norm_num) (by norm_num)

end F32

/-- The yaw increment `0.1f * dx` for a mouse delta whose conversion is exact. -/
theorem look_increment {n : Int} {q : ℚ} (h : F32.round32 (n : ℚ) = F32.fin q) :
    F32.mul MOUSE_SENSITIVITY (F32.ofInt n) = F32.round32 (13421773 / 134217728 * q) := by
  unfold MOUSE_SENSITIVITY F32.ofInt
  rw [h, F32.mul_pos_fin MOUSE_SENSITIVITY_pos]

theorem look_increment_0 : F32.mul MOUSE_SENSITIVITY (F32.ofInt 0) = F32.fin 0 := by
  rw [look_increment (q := 0) (by simpa using F32.round32_zero)]
  simpa using F32.round32_zero

theorem look_increment_1 :
    F32.mul MOUSE_SENSITIVITY (F32.ofInt 1) = F32.fin (13421773 / 134217728) := by
  rw [look_increment (q := 1) (by simpa using F32.round32_1)]
  simpa using F32.round32_tenth

theorem look_increment_2 :
    F32.mul MOUSE_SENSITIVITY (F32.ofInt 2) = F32.fin (13421773 / 67108864) := by
  rw [look_increment (q := 2) (by simpa using F32.round32_2)]
  exact F32.round32_two_tenths

theorem look_increment_3 :
    F32.mul MOUSE_SENSITIVITY (F32.ofInt 3) = F32.fin (5033165 / 16777216) := by
  rw [look_increment (q := 3) (by simpa using F32.round32_3)]
  exact F32.round32_three_tenths

theorem look_increment_10 : F32.mul MOUSE_SENSITIVITY (F32.ofInt 10) = F32.fin 1 := by
  rw [look_increment (q := 10) (by simpa using F32.round32_10)]
  exact F32.round32_ten_tenths

theorem look_increment_950 : F32.mul MOUSE_SENSITIVITY (F32.ofInt 950) = F32.fin 95 := by
  rw [look_increment (q := 950) (by simpa using F32.round32_950)]
  exact F32.round32_950_tenths

theorem look_increment_2000000000 :
    F32.mul MOUSE_SENSITIVITY (F32.ofInt 2000000000) = F32.fin 200000000 := by
  rw [look_increment (q := 2000000000) (by simpa using F32.round32_2000000000)]
  exact F32.round32_big_turn

theorem map_c_str_enumFrom (i : Nat) (lines : List String)
    (h : ∀ l ∈ lines, ∀ c ∈ l.data, c ≠ NUL) :
    (lines.enumFrom i).map (fun p => ModelCall.SetMaterial p.1 (c_str p.2)) =
      (lines.enumFrom i).map (fun p => ModelCall.SetMaterial p.1 p.2) := by
  induction lines generalizing i with
  | nil => rfl
  | cons l lines ih =>
    have hl : c_str l = l := c_str_eq_self l (h l (List.mem_cons_self _ _))
    have ht := ih (i + 1) (fun l2 hl2 => h l2 (List.mem_cons_of_mem _ hl2))
    simp only [List.enumFrom, List.map_cons, hl, ht]

theorem literal_mdl_no_NUL : ∀ c ∈ ".mdl".data, c ≠ NUL := by decide

theorem literal_txt_no_NUL : ∀ c ∈ ".txt".data, c ≠ NUL := by decide

theorem set_model_open (openFile : String → Option (List String)) (model_name : String)
    (lines : List String) (h : openFile (c_str (model_name ++ ".txt")) = some lines)
    (hlen : lines.length < 2 ^ 31) :
    set_model openFile model_name =
      some (ModelCall.SetModel (c_str (model_name ++ ".mdl")) ::
        lines.enum.map (fun p => ModelCall.SetMaterial p.1 (c_str p.2))) := by
  unfold set_model
  simp only [h]
  rw [materialLoop_eq 0 lines (by unfold INT_MAX; omega)]
  rfl

theorem set_model_closed (openFile : String → Option (List String)) (model_name : String)
    (h : openFile (c_str (model_name ++ ".txt")) = none) :
    set_model openFile model_name
      = some [ModelCall.SetModel (c_str (model_name ++ ".mdl"))] := by
  unfold set_model
  simp only [h]

theorem set_model_overflow (openFile : String → Option (List String)) (model_name : String)
    (lines : List String) (h : openFile (c_str (model_name ++ ".txt")) = some lines)
    (hlen : 2 ^ 31 ≤ lines.length) : set_model openFile model_name = none := by
  unfold set_model
  simp only [h]
  rw [materialLoop_overflow 0 lines (by unfold INT_MAX; omega) (by unfold INT_MAX; omega)]
  rfl

/-! ## The claims -/

/-- C1. Pitch invariant: starting from a state whose yaw and pitch
accumulators are both zero, after every finite sequence of update and
key-down events (any elapsed time, any held keys, any mouse delta, any
mouse-visibility flag in the starting state) the pitch accumulator is a
finite value in `[-90, 90]`; and each single event keeps the pitch in that
range from every state, whatever its flags. -/
theorem pitch_invariant (eng : Engine R) (s0 : AppState R) (hyaw : s0.yaw_ = F32.fin 0)
    (hpitch : s0.pitch_ = F32.fin 0) (evs : List Event) :
    (F32.le (F32.fin (-90)) (run eng evs s0).pitch_ = true ∧
      F32.le (run eng evs s0).pitch_ (F32.fin 90) = true) ∧
    (∀ (e : Event) (s : AppState R),
      F32.le (F32.fin (-90)) s.pitch_ = true ∧ F32.le s.pitch_ (F32.fin 90) = true →
      F32.le (F32.fin (-90)) (dispatch eng s e).pitch_ = true ∧
        F32.le (dispatch eng s e).pitch_ (F32.fin 90) = true) := by
  have _ := hyaw
  refine ⟨?_, fun e s h => dispatch_pitch_range eng e s h⟩
  apply run_pitch_range
  rw [hpitch]
  unfold pitchInRange
  constructor <;> simp

theorem pitch_invariant_witness :
    sampleState.yaw_ = F32.fin 0 ∧ sampleState.pitch_ = F32.fin 0 ∧
      F32.le (F32.fin (-90)) (run sampleEngine
        [Event.update sixtieth lookFrame, Event.keyDown 9,
         Event.update (F32.fin 0) lookFrame, Event.keyDown 9,
         Event.update sixtieth lookFrame] sampleState).pitch_ = true ∧
      F32.le (run sampleEngine
        [Event.update sixtieth lookFrame, Event.keyDown 9,
         Event.update (F32.fin 0) lookFrame, Event.keyDown 9,
         Event.update sixtieth lookFrame] sampleState).pitch_ (F32.fin 90) = true :=
  ⟨rfl, rfl, (pitch_invariant sampleEngine sampleState rfl rfl _).1⟩

/-- C2 as stated fails in binary32.  From a yaw of `200000000` (itself
reached from zero in one frame with a mouse delta of `2000000000`) the deltas
`dx = 1` and `dx = 2` both leave the yaw at `200000000`, so the yaw is not
strictly increasing in `dx`; and from zero, `dx = 3` gives `0.300000012`,
not `3/10`. -/
theorem mouse_look_counterexample :
    lookActive (turnFrame 1) turnedState ∧ lookActive (turnFrame 2) turnedState ∧
    turnedState.yaw_.representable ∧
    (HandleUpdate sampleEngine sixtieth (turnFrame 2000000000) sampleState).yaw_
      = turnedState.yaw_ ∧
    (HandleUpdate sampleEngine sixtieth (turnFrame 1) turnedState).yaw_
      = F32.fin 200000000 ∧
    (HandleUpdate sampleEngine sixtieth (turnFrame 2) turnedState).yaw_
      = F32.fin 200000000 ∧
    (HandleUpdate sampleEngine sixtieth (turnFrame 3) sampleState).yaw_
      = F32.fin (5033165 / 16777216) ∧
    (5033165 / 16777216 : ℚ) ≠ 0 + 1 / 10 * 3 := by
  have h1 : lookActive (turnFrame 1) turnedState := by decide
  have h2 : lookActive (turnFrame 2) turnedState := by decide
  have h3 : lookActive (turnFrame 3) sampleState := by decide
  have h4 : lookActive (turnFrame 2000000000) sampleState := by decide
  refine ⟨h1, h2, F32.round32_200000000, ?_, ?_, ?_, ?_, by norm_num⟩
  · rw [HandleUpdate_yaw, if_pos h4]
    show F32.add (F32.fin 0) (F32.mul MOUSE_SENSITIVITY (F32.ofInt 2000000000)) = _
    rw [look_increment_2000000000, F32.add_fin_fin, zero_add, F32.round32_200000000]
    rfl
  · rw [HandleUpdate_yaw, if_pos h1]
    show F32.add (F32.fin 200000000) (F32.mul MOUSE_SENSITIVITY (F32.ofInt 1)) = _
    rw [look_increment_1, F32.add_fin_fin, F32.round32_absorb_one]
  · rw [HandleUpdate_yaw, if_pos h2]
    show F32.add (F32.fin 200000000) (F32.mul MOUSE_SENSITIVITY (F32.ofInt 2)) = _
    rw [look_increment_2, F32.add_fin_fin, F32.round32_absorb_two]
  · rw [HandleUpdate_yaw, if_pos h3]
    show F32.add (F32.fin 0) (F32.mul MOUSE_SENSITIVITY (F32.ofInt 3)) = _
    rw [look_increment_3, F32.add_fin_fin, zero_add, F32.round32_5033165]

/-- C2 amended.  With the cursor hidden and neither axis of the mouse delta at
the sentinel, `HandleUpdate` yields the binary32 results `yaw + 0.1f*dx` and
`Clamp(pitch + 0.1f*dy, -90, 90)`, each product and sum rounded to nearest.
Hence, for a finite prior yaw and pitch, the new yaw is non-decreasing in `dx`
(not strictly increasing), the new pitch is non-decreasing in `dy`, and a pitch
that accumulates to 95 reads back as 90. -/
theorem mouse_look_update (eng : Engine R) (t : F32) (input : InputFrame) (s : AppState R)
    (h : lookActive input s) :
    (HandleUpdate eng t input s).yaw_ =
      F32.add s.yaw_ (F32.mul MOUSE_SENSITIVITY (F32.ofInt input.mouseMove.x_)) ∧
    (HandleUpdate eng t input s).pitch_ =
      Clamp (F32.add s.pitch_ (F32.mul MOUSE_SENSITIVITY (F32.ofInt input.mouseMove.y_)))
        (F32.fin (-90)) (F32.fin 90) ∧
    (s.yaw_.isFinite = true → s.yaw_.representable →
      ∀ (t2 : F32) (input2 : InputFrame), lookActive input2 s →
        input.mouseMove.x_ ≤ input2.mouseMove.x_ →
        F32.le (HandleUpdate eng t input s).yaw_ (HandleUpdate eng t2 input2 s).yaw_ = true) ∧
    (s.pitch_.isFinite = true → s.pitch_.representable →
      ∀ (t2 : F32) (input2 : InputFrame), lookActive input2 s →
        input.mouseMove.y_ ≤ input2.mouseMove.y_ →
        F32.le (HandleUpdate eng t input s).pitch_ (HandleUpdate eng t2 input2 s).pitch_
          = true) ∧
    (F32.add s.pitch_ (F32.mul MOUSE_SENSITIVITY (F32.ofInt input.mouseMove.y_)) = F32.fin 95 →
      (HandleUpdate eng t input s).pitch_ = F32.fin 90) := by
  refine ⟨?_, ?_, ?_, ?_, ?_⟩
  · rw [HandleUpdate_yaw, if_pos h]
  · rw [HandleUpdate_pitch, if_pos h]
  · intro hfin hrep t2 input2 h2 hle
    rw [HandleUpdate_yaw, if_pos h, HandleUpdate_yaw, if_pos h2]
    exact F32.add_mono hfin hrep (F32.mul_pos_mono MOUSE_SENSITIVITY_pos (F32.ofInt_mono hle))
  · intro hfin hrep t2 input2 h2 hle
    rw [HandleUpdate_pitch, if_pos h, HandleUpdate_pitch, if_pos h2]
    exact Clamp_mono
      (F32.add_mono hfin hrep (F32.mul_pos_mono MOUSE_SENSITIVITY_pos (F32.ofInt_mono hle)))
  · intro h95
    rw [HandleUpdate_pitch, if_pos h, h95, Clamp_fin]
    norm_num

theorem mouse_look_update_witness :
    lookActive lookFrame sampleState ∧
      (HandleUpdate sampleEngine sixtieth lookFrame sampleState).yaw_ = F32.fin 1 ∧
      (HandleUpdate sampleEngine sixtieth lookFrame sampleState).pitch_ = F32.fin 90 := by
  have hact : lookActive lookFrame sampleState := by decide
  have h := mouse_look_update sampleEngine sixtieth lookFrame sampleState hact
  refine ⟨hact, ?_, ?_⟩
  · rw [h.1]
    show F32.add (F32.fin 0) (F32.mul MOUSE_SENSITIVITY (F32.ofInt 10)) = _
    rw [look_increment_10, F32.add_fin_fin, zero_add, F32.round32_1]
  · apply h.2.2.2.2
    show F32.add (F32.fin 0) (F32.mul MOUSE_SENSITIVITY (F32.ofInt 950)) = _
    rw [look_increment_950, F32.add_fin_fin, zero_add, F32.round32_95]

/-- C3 as stated fails in binary32.  With `timeStep` the float nearest `1/60`
and only W held, the camera at the origin moves by `0.166666672`, which is not
`10 * timeStep`; and the camera at `z = 2^24` does not move at all. -/
theorem camera_translation_counterexample :
    sixtieth.representable ∧ farState.cameraNode_.position.representable ∧
    (HandleUpdate sampleEngine sixtieth forwardFrame sampleState).cameraNode_.position
      = ⟨F32.fin 0, F32.fin 0, F32.fin (11184811 / 67108864)⟩ ∧
    (11184811 / 67108864 : ℚ) ≠ 10 * (8947849 / 536870912) ∧
    (HandleUpdate sampleEngine sixtieth forwardFrame farState).cameraNode_.position
      = farState.cameraNode_.position := by
  have hq : (0 : ℚ) < 8947849 / 536870912 := by norm_num
  have hs : speed forwardFrame = 10 := rfl
  refine ⟨F32.round32_sixtieth,
    ⟨F32.round32_zero, F32.round32_zero, F32.round32_16777216⟩, ?_, by norm_num, ?_⟩
  · unfold sixtieth
    rw [HandleUpdate_position_pos sampleEngine _ hq, hs]
    ext
    · show F32.add (F32.fin 0) (F32.fin 0) = F32.fin 0
      rw [F32.add_fin_fin, zero_add, F32.round32_zero]
    · show F32.add (F32.fin 0) (F32.fin 0) = F32.fin 0
      rw [F32.add_fin_fin, zero_add, F32.round32_zero]
    · show F32.add (F32.fin 0) (F32.round32 (10 * (8947849 / 536870912))) = _
      rw [F32.round32_ten_sixtieths, F32.add_fin_fin, zero_add, F32.round32_11184811]
  · unfold sixtieth
    rw [HandleUpdate_position_pos sampleEngine _ hq, hs]
    ext
    · show F32.add (F32.fin 0) (F32.fin 0) = F32.fin 0
      rw [F32.add_fin_fin, zero_add, F32.round32_zero]
    · show F32.add (F32.fin 0) (F32.fin 0) = F32.fin 0
      rw [F32.add_fin_fin, zero_add, F32.round32_zero]
    · show F32.add (F32.fin 16777216) (F32.round32 (10 * (8947849 / 536870912))) = _
      rw [F32.round32_ten_sixtieths, F32.add_fin_fin, F32.round32_absorb_step]
      rfl

/-- C3 amended.  For every finite elapsed time `t > 0` and every subset of
held keys W, S, A, D, `HandleUpdate` translates the camera once for each held
key, in the order W, S, A, D, by the rotation (under the orientation the
camera had on entry) of the local vector `(0, 0, v)`, `(0, 0, -v)`,
`(-v, 0, 0)`, `(v, 0, 0)`, where `v` is `speed * t` rounded to binary32 and
`speed = 10`, or `100` while shift is held.  Each translation is a binary32
vector addition; held keys add up one after another, without normalisation. -/
theorem camera_translation (eng : Engine R) (q : ℚ) (hq : 0 < q) (input : InputFrame)
    (s : AppState R) :
    (HandleUpdate eng (F32.fin q) input s).cameraNode_.position =
      let r := s.cameraNode_.rotation
      let p := s.cameraNode_.position
      let p := if input.keyW then p + eng.rotate r
          ⟨F32.fin 0, F32.fin 0, F32.round32 ((if input.qualShift then 100 else 10) * q)⟩
        else p
      let p := if input.keyS then p + eng.rotate r
          ⟨F32.fin 0, F32.fin 0, F32.round32 (-((if input.qualShift then 100 else 10) * q))⟩
        else p
      let p := if input.keyA then p + eng.rotate r
          ⟨F32.round32 (-((if input.qualShift then 100 else 10) * q)), F32.fin 0, F32.fin 0⟩
        else p
      if input.keyD then p + eng.rotate r
          ⟨F32.round32 ((if input.qualShift then 100 else 10) * q), F32.fin 0, F32.fin 0⟩
        else p :=
  HandleUpdate_position_pos eng q hq input s

theorem camera_translation_witness :
    (0 : ℚ) < 13421773 / 134217728 ∧
      (HandleUpdate sampleEngine tenth forwardFrame sampleState).cameraNode_.position
        = ⟨F32.fin 0, F32.fin 0, F32.fin 1⟩ ∧
      (HandleUpdate sampleEngine tenth fastForwardFrame sampleState).cameraNode_.position
        = ⟨F32.fin 0, F32.fin 0, F32.fin 10⟩ := by
  have hq : (0 : ℚ) < 13421773 / 134217728 := by norm_num
  have h1 := camera_translation sampleEngine _ hq forwardFrame sampleState
  have h2 := camera_translation sampleEngine _ hq fastForwardFrame sampleState
  refine ⟨hq, ?_, ?_⟩
  · unfold tenth
    rw [h1]
    ext
    · show F32.add (F32.fin 0) (F32.fin 0) = F32.fin 0
      rw [F32.add_fin_fin, zero_add, F32.round32_zero]
    · show F32.add (F32.fin 0) (F32.fin 0) = F32.fin 0
      rw [F32.add_fin_fin, zero_add, F32.round32_zero]
    · show F32.add (F32.fin 0) (F32.round32 (10 * (13421773 / 134217728))) = _
      rw [mul_comm, F32.round32_ten_tenths, F32.add_fin_fin, zero_add, F32.round32_1]
  · unfold tenth
    rw [h2]
    ext
    · show F32.add (F32.fin 0) (F32.fin 0) = F32.fin 0
      rw [F32.add_fin_fin, zero_add, F32.round32_zero]
    · show F32.add (F32.fin 0) (F32.fin 0) = F32.fin 0
      rw [F32.add_fin_fin, zero_add, F32.round32_zero]
    · show F32.add (F32.fin 0) (F32.round32 (100 * (13421773 / 134217728))) = _
      rw [F32.round32_hundred_tenths, F32.add_fin_fin, zero_add, F32.round32_10]

/-- C4. Look update skipped when inactive: if the cursor is visible, or
either axis of the mouse delta is at or below `-2000000000`, `HandleUpdate`
leaves the yaw and pitch accumulators and the camera orientation unchanged. -/
theorem look_skipped_when_inactive (eng : Engine R) (t : F32) (input : InputFrame)
    (s : AppState R)
    (h : s.mouseVisible = true ∨ input.mouseMove.x_ ≤ -2000000000 ∨
      input.mouseMove.y_ ≤ -2000000000) :
    (HandleUpdate eng t input s).yaw_ = s.yaw_ ∧
    (HandleUpdate eng t input s).pitch_ = s.pitch_ ∧
    (HandleUpdate eng t input s).cameraNode_.rotation = s.cameraNode_.rotation := by
  have hna : ¬ lookActive input s := (not_lookActive_iff input s).mpr h
  rw [HandleUpdate_yaw, HandleUpdate_pitch, HandleUpdate_rotation]
  simp [hna]

theorem look_skipped_when_inactive_witness :
    (sampleState.mouseVisible = true ∨ sentinelFrame.mouseMove.x_ ≤ -2000000000 ∨
      sentinelFrame.mouseMove.y_ ≤ -2000000000) ∧
    (HandleUpdate sampleEngine sixtieth sentinelFrame sampleState).yaw_ = sampleState.yaw_ ∧
    (HandleUpdate sampleEngine sixtieth sentinelFrame sampleState).pitch_
      = sampleState.pitch_ ∧
    (HandleUpdate sampleEngine sixtieth sentinelFrame sampleState).cameraNode_.rotation
      = sampleState.cameraNode_.rotation :=
  ⟨by decide,
   look_skipped_when_inactive sampleEngine sixtieth sentinelFrame sampleState (by decide)⟩

/-- C5. Capture toggle: a key-down of Tab negates the mouse-visible flag and
the mouse-grabbed flag in the same event, and a second Tab restores the state
(both flags included) to what it was. -/
theorem capture_toggle (eng : Engine R) (s : AppState R) :
    (HandleKeyDown eng eng.KEY_TAB s).mouseVisible = !s.mouseVisible ∧
    (HandleKeyDown eng eng.KEY_TAB s).mouseGrabbed = !s.mouseGrabbed ∧
    (HandleKeyDown eng eng.KEY_TAB (HandleKeyDown eng eng.KEY_TAB s)).mouseVisible
      = s.mouseVisible ∧
    (HandleKeyDown eng eng.KEY_TAB (HandleKeyDown eng eng.KEY_TAB s)).mouseGrabbed
      = s.mouseGrabbed ∧
    HandleKeyDown eng eng.KEY_TAB (HandleKeyDown eng eng.KEY_TAB s) = s := by
  rcases s with ⟨cam, planet, yaw, pitch, txt, mv, mg, wv, fm, ex⟩
  simp [HandleKeyDown]

/-- C6. Fill-mode toggle: a key-down of T switches the camera's fill mode
between its two states, wireframe to solid and solid to wireframe, so it
always changes it; and for every starting fill mode and every even `n`, `n`
key-downs of T leave the fill mode (indeed the whole state) as it was.  The
four key codes are assumed pairwise different. -/
theorem fill_mode_toggle (eng : Engine R) (hk : eng.keysDistinct) (s : AppState R) :
    (s.fillMode = FillMode.FILL_WIREFRAME →
      (HandleKeyDown eng eng.KEY_T s).fillMode = FillMode.FILL_SOLID) ∧
    (s.fillMode = FillMode.FILL_SOLID →
      (HandleKeyDown eng eng.KEY_T s).fillMode = FillMode.FILL_WIREFRAME) ∧
    (HandleKeyDown eng eng.KEY_T s).fillMode ≠ s.fillMode ∧
    (∀ n : Nat, Even n →
      ((HandleKeyDown eng eng.KEY_T)^[n] s).fillMode = s.fillMode ∧
      (HandleKeyDown eng eng.KEY_T)^[n] s = s) := by
  refine ⟨?_, ?_, ?_, ?_⟩
  · intro h
    rw [HandleKeyDown_T eng hk]
    simp [h]
  · intro h
    rw [HandleKeyDown_T eng hk]
    simp [h]
  · rw [HandleKeyDown_T eng hk]
    cases h : s.fillMode <;> simp
  · intro n hn
    obtain ⟨k, rfl⟩ := hn
    have hfix : (HandleKeyDown eng eng.KEY_T)^[2] s = s := HandleKeyDown_T_twice eng hk s
    have hall : (HandleKeyDown eng eng.KEY_T)^[k + k] s = s := by
      rw [← two_mul, Function.iterate_mul]
      exact Function.iterate_fixed hfix k
    rw [hall]
    exact ⟨rfl, rfl⟩

theorem fill_mode_toggle_witness :
    sampleEngine.keysDistinct ∧
      (HandleKeyDown sampleEngine 116 sampleState).fillMode = FillMode.FILL_WIREFRAME ∧
      ((HandleKeyDown sampleEngine 116)^[4] sampleState).fillMode = FillMode.FILL_SOLID := by
  have h := fill_mode_toggle sampleEngine sampleEngine_keysDistinct sampleState
  exact ⟨sampleEngine_keysDistinct, h.2.1 rfl, (h.2.2.2 4 (by decide)).1⟩

/-- C8 as stated fails: at `timeStep = 0` the quotient `1/timeStep` is still
evaluated, with a zero divisor, and the overlay shows the text of the
resulting infinity. -/
theorem frame_rate_guard_counterexample :
    frameRate (F32.fin 0) = F32.inf false ∧
    (HandleUpdate sampleEngine (F32.fin 0) forwardFrame sampleState).window_text
      = helpText ++ "inf FPS " := by
  have h : F32.div (F32.fin 1) (F32.fin 0) = F32.inf false := by
    rw [F32.div_one_zero (by simp [F32.isZero])]
    simp [F32.sign]
  refine ⟨h, ?_⟩
  rw [HandleUpdate_window_text, h]
  rfl

/-- C8 amended. `HandleUpdate` streams `1/timeStep` into the overlay text
on every call, without testing `timeStep`: the text is the help text, the
first six characters of the streamed quotient and `" FPS "`.  When `timeStep`
is a zero, the division by zero is evaluated; it does not trap, and the text
shown is that of the infinity with the sign of that zero. -/
theorem frame_rate_unguarded (eng : Engine R) (t : F32) (input : InputFrame)
    (s : AppState R) :
    (HandleUpdate eng t input s).window_text =
      helpText ++ (eng.streamFloat (F32.div (F32.fin 1) t)).take 6 ++ " FPS " ∧
    (t.isZero = true →
      (HandleUpdate eng t input s).window_text =
        helpText ++ (eng.streamFloat (F32.inf t.sign)).take 6 ++ " FPS ") := by
  refine ⟨HandleUpdate_window_text eng t input s, ?_⟩
  intro h0
  rw [HandleUpdate_window_text, F32.div_one_zero h0]

/-- C9. Key events are independent and unrecognised keys are ignored: Tab
changes only the mouse-visible/grabbed pair, Esc only the exit request, G only
the overlay visibility, T only the fill mode; every other key leaves the whole
state as it is; and no key changes the camera node, the accumulators or the
overlay text.  `HandleKeyDown` is total, so no key raises an error.  The four
key codes are assumed pairwise different. -/
theorem key_events_independent (eng : Engine R) (hk : eng.keysDistinct) (key : Int)
    (s : AppState R) :
    (key = eng.KEY_TAB → HandleKeyDown eng key s =
      { s with mouseVisible := !s.mouseVisible, mouseGrabbed := !s.mouseGrabbed }) ∧
    (key = eng.KEY_ESCAPE → HandleKeyDown eng key s = { s with exitRequested := true }) ∧
    (key = eng.KEY_G → HandleKeyDown eng key s =
      { s with windowVisible := !s.windowVisible }) ∧
    (key = eng.KEY_T → HandleKeyDown eng key s =
      { s with fillMode :=
          if s.fillMode = FillMode.FILL_WIREFRAME then FillMode.FILL_SOLID
          else FillMode.FILL_WIREFRAME }) ∧
    (key ≠ eng.KEY_TAB → key ≠ eng.KEY_ESCAPE → key ≠ eng.KEY_G → key ≠ eng.KEY_T →
      HandleKeyDown eng key s = s) ∧
    ((HandleKeyDown eng key s).cameraNode_ = s.cameraNode_ ∧
      (HandleKeyDown eng key s).yaw_ = s.yaw_ ∧
      (HandleKeyDown eng key s).pitch_ = s.pitch_ ∧
      (HandleKeyDown eng key s).window_text = s.window_text) := by
  obtain ⟨h1, h2, h3, h4, h5, h6⟩ := hk
  refine ⟨?_, ?_, ?_, ?_, ?_, ?_⟩
  · intro h
    subst h
    simp [HandleKeyDown]
  · intro h
    subst h
    simp [HandleKeyDown, Ne.symm h1]
  · intro h
    subst h
    simp [HandleKeyDown, Ne.symm h2, Ne.symm h4]
  · intro h
    subst h
    exact HandleKeyDown_T eng ⟨h1, h2, h3, h4, h5, h6⟩ s
  · intro n1 n2 n3 n4
    simp [HandleKeyDown, n1, n2, n3, n4]
  · have hp := HandleKeyDown_pose eng key s
    exact ⟨hp.1, hp.2.2.1, HandleKeyDown_pitch eng key s, hp.2.2.2⟩

theorem key_events_independent_witness :
    sampleEngine.keysDistinct ∧
      HandleKeyDown sampleEngine 42 sampleState = sampleState ∧
      HandleKeyDown sampleEngine 27 sampleState = { sampleState with exitRequested := true } := by
  have h42 := key_events_independent sampleEngine sampleEngine_keysDistinct 42 sampleState
  have h27 := key_events_independent sampleEngine sampleEngine_keysDistinct 27 sampleState
  refine ⟨sampleEngine_keysDistinct, ?_, h27.2.1 rfl⟩
  exact h42.2.2.2.2.1 (by decide) (by decide) (by decide) (by decide)

/-- C10 as stated fails.  A model name with a NUL character is cut there by
`c_str()`: for `"ab\0cd"` the model is set from `"ab"`, not `"ab\0cd.mdl"`,
the file opened is `"ab"`, not `"ab\0cd.txt"`, and a line `"Mat\0x"` names the
material `"Mat"`.  And with `2^31` lines the `int` counter overflows. -/
theorem set_model_counterexample :
    set_model (fun path => if path = "ab" then some ["Mat\x00x"] else none) "ab\x00cd"
      = some [ModelCall.SetModel "ab", ModelCall.SetMaterial 0 "Mat"] ∧
    set_model (fun _ => some (List.replicate 2147483648 "m")) "a" = none := by
  constructor
  · decide
  · exact set_model_overflow _ "a" (List.replicate 2147483648 "m") rfl
      (by rw [List.length_replicate]; norm_num)

/-- C10 amended.  `set_model` sets the model from the resource named
`model_name + ".mdl"` and opens the file `model_name + ".txt"`, both read as C
strings, that is, cut at the first NUL character.  If the file opens and has
fewer than `2^31` lines, `SetMaterial(i, line i)` is called exactly once for
each line, in file order, with `i` counting from 0 and each line read as a C
string; if it does not open, no material is set.  When neither `model_name` nor
any line contains a NUL character the names are the full strings. -/
theorem set_model_calls (openFile : String → Option (List String)) (model_name : String) :
    (openFile (c_str (model_name ++ ".txt")) = none →
      set_model openFile model_name
        = some [ModelCall.SetModel (c_str (model_name ++ ".mdl"))]) ∧
    (∀ lines : List String, openFile (c_str (model_name ++ ".txt")) = some lines →
      lines.length < 2 ^ 31 →
      set_model openFile model_name =
        some (ModelCall.SetModel (c_str (model_name ++ ".mdl")) ::
          lines.enum.map (fun p => ModelCall.SetMaterial p.1 (c_str p.2)))) ∧
    ((∀ c ∈ model_name.data, c ≠ NUL) →
      (openFile (model_name ++ ".txt") = none →
        set_model openFile model_name = some [ModelCall.SetModel (model_name ++ ".mdl")]) ∧
      (∀ lines : List String, openFile (model_name ++ ".txt") = some lines →
        lines.length < 2 ^ 31 → (∀ l ∈ lines, ∀ c ∈ l.data, c ≠ NUL) →
        set_model openFile model_name =
          some (ModelCall.SetModel (model_name ++ ".mdl") ::
            lines.enum.map (fun p => ModelCall.SetMaterial p.1 p.2)))) := by
  refine ⟨set_model_closed openFile model_name,
    fun lines h hlen => set_model_open openFile model_name lines h hlen, ?_⟩
  intro hname
  have hmdl := c_str_append_literal model_name ".mdl" hname literal_mdl_no_NUL
  have htxt := c_str_append_literal model_name ".txt" hname literal_txt_no_NUL
  constructor
  · intro h
    rw [← htxt] at h
    rw [set_model_closed openFile model_name h, hmdl]
  · intro lines h hlen hlines
    rw [← htxt] at h
    rw [set_model_open openFile model_name lines h hlen, hmdl]
    unfold List.enum
    rw [map_c_str_enumFrom 0 lines hlines]

theorem set_model_calls_witness :
    (∀ c ∈ "Data/Models/torch".data, c ≠ NUL) ∧
    set_model (fun path =>
        if path = "Data/Models/torch.txt" then some ["Materials/a.xml", "Materials/b.xml"]
        else if path = "Data/Models/torch.mdl.txt" then some ["Materials/c.xml"]
        else none) "Data/Models/torch"
      = some [ModelCall.SetModel "Data/Models/torch.mdl",
         ModelCall.SetMaterial 0 "Materials/a.xml",
         ModelCall.SetMaterial 1 "Materials/b.xml"] := by
  have hname : ∀ c ∈ "Data/Models/torch".data, c ≠ NUL := by decide
  refine ⟨hname, ?_⟩
  exact ((set_model_calls _ "Data/Models/torch").2.2 hname).2
    ["Materials/a.xml", "Materials/b.xml"] rfl (by decide) (by decide)

end UrhoSample
